import Mathlib

/-!
Shallow embedding of the signal-scoring and narrative-clustering core of the
solana-narrative-detector repository, together with theorems checking the
natural-language specification against it.

Conventions of the embedding:
* JavaScript numbers are modelled by `ℚ` (exact real arithmetic on the
  rationals); `Math.exp` and `Math.sqrt` are transcendental, so every
  definition that needs them takes a function parameter (`e`, `sq`) standing
  for the mathematical function; every theorem is stated for all such
  parameters (adding positivity hypotheses where the property needs a fact
  about the real exponential).
* `Date.now()` is modelled by an explicit `now : ℚ` parameter (milliseconds).
* A JS `Set` is modelled by an insertion-ordered duplicate-free `List`
  (`setAdd` is `Set.add`, `listToSet` is `new Set(xs)` followed by
  `Array.from`), and a JS `Map` by an insertion-ordered association list.
* `Array.prototype.sort` is stable in modern engines (ECMA 2019); it is
  modelled by `jsSortDesc` (a stable insertion sort), since two stable sorts
  of the same list under the same total preorder agree.
* `Math.random()` consumed by narrative-id generation is modelled by a
  stream `rand : ℕ → String` supplying the suffix of the n-th narrative id.
-/

namespace SolNarr

/- The Batteries rational arithmetic is `irreducible` by default; restore
definitional reducibility so that concrete runs of the embedding can be
checked by `decide`. -/
attribute [local semireducible] Rat.add Rat.mul Rat.inv Rat.sub
  Rat.ofScientific

/-! ### JS string primitives

The built-in `String.toLower`, `String.trim` and `String.splitOn` recurse on
byte positions, which the kernel cannot evaluate; the embedding uses
character-list implementations instead (identical on ASCII data). -/

/-- JS `String.prototype.toLowerCase` (ASCII). -/
def jsToLower (s : String) : String := String.mk (s.toList.map Char.toLower)

/-- JS `String.prototype.trim`: strip whitespace from both ends. -/
def jsTrim (s : String) : String :=
  String.mk
    (((s.toList.dropWhile Char.isWhitespace).reverse.dropWhile
        Char.isWhitespace).reverse)

/-- Splitting on one separator character (JS `s.split(c)`). -/
def splitCharList (c : Char) : List Char → List (List Char)
  | [] => [[]]
  | d :: ds =>
      if d = c then [] :: splitCharList c ds
      else
        match splitCharList c ds with
        | h :: t => (d :: h) :: t
        | [] => [[d]]

/-- JS `s.split(c)` for a single-character separator. -/
def jsSplitChar (c : Char) (s : String) : List String :=
  (splitCharList c s.toList).map fun l => String.mk l

/-! ### JS collection helpers -/

/-- JS `Set.prototype.add`: append if absent, keeping insertion order. -/
def setAdd {α : Type} [DecidableEq α] (l : List α) (x : α) : List α :=
  if x ∈ l then l else l ++ [x]

/-- `Array.from(new Set(l))`: deduplicate keeping first occurrences. -/
def listToSet {α : Type} [DecidableEq α] (l : List α) : List α :=
  l.foldl setAdd []

/-- JS `Map` increment: add `w` to the entry for `k` in place, or append
`(k, w)`; models `map.set(k, (map.get(k) ?? 0) + w)` on an insertion-ordered
map. -/
def bump {κ : Type} [DecidableEq κ] (m : List (κ × ℕ)) (k : κ) (w : ℕ) :
    List (κ × ℕ) :=
  match m with
  | [] => [(k, w)]
  | (k', v) :: rest =>
      if k = k' then (k', v + w) :: rest else (k', v) :: bump rest k w

/-- The value stored for key `k` in an association-list map (`0` when
absent); used to reason about `bump` folds. -/
def mapVal {κ : Type} [DecidableEq κ] (m : List (κ × ℕ)) (k : κ) : ℕ :=
  ((m.find? fun p => decide (p.1 = k)).map Prod.snd).getD 0

/-- `Array.prototype.map` where the callback also consumes one element of an
external stream per call (used for `Math.random()` in id generation). -/
def mapWithIndex {α β : Type} (f : ℕ → α → β) : List α → List β
  | [] => []
  | a :: l => f 0 a :: mapWithIndex (fun i x => f (i + 1) x) l

instance jsSortRel {α κ : Type} [LinearOrder κ] (key : α → κ) :
    DecidableRel (fun a b : α => key b ≤ key a) :=
  fun a b => inferInstanceAs (Decidable (key b ≤ key a))

/-- Model of the stable `Array.prototype.sort` (ECMA 2019) with comparator
`(a, b) => key(b) - key(a)`: descending by `key`, ties kept in original
order. Insertion sort is stable, and every stable sort of a total preorder
produces the same list. -/
def jsSortDesc {α κ : Type} [LinearOrder κ] (key : α → κ) (l : List α) :
    List α :=
  l.insertionSort fun a b => key b ≤ key a

/-- JS `String.prototype.includes` on character lists. -/
def hasSubList (sub : List Char) : List Char → Bool
  | [] => sub.isEmpty
  | c :: cs => sub.isPrefixOf (c :: cs) || hasSubList sub cs

/-- JS `a.includes(b)`. -/
def strIncludes (s sub : String) : Bool := hasSubList sub.toList s.toList

mutual

/-- `String.prototype.split` on a character-class regex `/[cls]+/g`:
one maximal run of matching characters separates two fields. -/
def splitRunsAux (p : Char → Bool) : List Char → List Char → List (List Char)
  | [], cur => [cur.reverse]
  | c :: cs, cur =>
      if p c then cur.reverse :: splitRunsSkip p cs
      else splitRunsAux p cs (c :: cur)

/-- Skips the remainder of a separator run. -/
def splitRunsSkip (p : Char → Bool) : List Char → List (List Char)
  | [] => [[]]
  | c :: cs => if p c then splitRunsSkip p cs else splitRunsAux p cs [c]

end

/-- JS `s.split(/[cls]+/)` for the character class decided by `p`. -/
def jsSplitRuns (p : Char → Bool) (s : String) : List String :=
  (splitRunsAux p s.toList []).map fun l => String.mk l

/-! ### Data model (src/unnamed/part_000, `types.ts`)

`Signal.content` and `Signal.metadata` are carried by the source records but
never read by the scorer or clusterer, so they are omitted from the
embedding. -/

/-- `Signal.source`: 'onchain' | 'github' | 'twitter' | 'discord' | 'report'.
The spec names these categories on-chain-activity, repository-activity,
social-post, article and forum-post respectively. -/
inductive Source : Type where
  | onchain | github | twitter | discord | report
deriving DecidableEq, Repr, Inhabited

/-- The string value of a `Source` (used by description building). -/
def sourceName : Source → String
  | .onchain => "onchain"
  | .github => "github"
  | .twitter => "twitter"
  | .discord => "discord"
  | .report => "report"

structure Signal where
  id : String
  source : Source
  timestamp : ℚ
  keywords : List String
  weight : ℚ
deriving DecidableEq, Repr, Inhabited

/-- `ProcessedSignal extends Signal` with the three derived scores. -/
structure ProcessedSignal extends Signal where
  normalizedWeight : ℚ
  recencyScore : ℚ
  crossSourceScore : ℚ
deriving DecidableEq, Repr, Inhabited

structure NarrativeMetrics where
  crossSourceCount : ℕ
  velocity : ℚ
  recency : ℚ
  keyVoiceMentions : ℕ
deriving DecidableEq, Repr, Inhabited

/-- `Narrative` output record. The `ideas` field is always `[]` at clustering
time and is omitted. -/
structure Narrative where
  id : String
  title : String
  description : String
  signals : List ProcessedSignal
  keywords : List String
  score : ℚ
  metrics : NarrativeMetrics
  timestamp : ℚ
deriving DecidableEq, Repr, Inhabited

/-! ### SignalDetector (src/src/analysis/signal-detector.ts) -/

def STOP_KEYWORDS : List String :=
  ["https", "http", "www", "com", "org", "dev", "html", "json", "api",
   "github", "git", "readme", "license", "master", "main",
   "rust", "typescript", "javascript", "python", "java", "cpp",
   "solana", "program", "programs", "repo", "repository",
   "code", "build", "built", "source", "open", "new", "use", "using",
   "project", "lib", "library", "example", "examples", "test", "tests",
   "the", "and", "for", "with", "this", "that", "from", "are", "was",
   "into", "about", "based", "also", "just", "only", "more", "some",
   "implementation", "tool", "tools", "app", "application"]

/-- `SignalDetector.cleanKeywords`. -/
def cleanKeywords (signals : List Signal) : List Signal :=
  signals.map fun s =>
    { s with keywords :=
        s.keywords.filter fun kw => !(STOP_KEYWORDS.contains (jsToLower kw)) }

/-- One step of `buildKeywordSourceMap`: record that keyword `k` was seen in
source `src`. -/
def mapAddSource (m : List (String × List Source)) (k : String) (src : Source) :
    List (String × List Source) :=
  match m with
  | [] => [(k, [src])]
  | (k', set) :: rest =>
      if k = k' then (k', setAdd set src) :: rest
      else (k', set) :: mapAddSource rest k src

/-- `SignalDetector.buildKeywordSourceMap`. -/
def buildKeywordSourceMap (signals : List Signal) :
    List (String × List Source) :=
  signals.foldl
    (fun m s => s.keywords.foldl (fun m kw => mapAddSource m kw s.source) m) []

/-- Milliseconds per day, `1000 * 60 * 60 * 24`. -/
def msPerDay : ℚ := 1000 * 60 * 60 * 24

/-- `SignalDetector.calculateRecencyScore`; `e` models `Math.exp`. -/
def calculateRecencyScore (e : ℚ → ℚ) (now timestamp : ℚ) : ℚ :=
  let ageInDays := (now - timestamp) / msPerDay
  e (-ageInDays / 7)

/-- `SignalDetector.calculateCrossSourceScore`. -/
def calculateCrossSourceScore (keywords : List String)
    (sourceMap : List (String × List Source)) : ℚ :=
  let acc := keywords.foldl
    (fun (p : ℕ × ℕ) kw =>
      match sourceMap.lookup kw with
      | some sources => (p.1 + sources.length, p.2 + 1)
      | none => p)
    (0, 0)
  if acc.2 > 0 then (acc.1 : ℚ) / (acc.2 : ℚ) else 0

/-- `Math.max(...weights)` over a JS spread of a nonempty array. -/
def listMax (l : List ℚ) : ℚ :=
  match l with
  | [] => 0
  | x :: rest => rest.foldl max x

/-- `Math.min(...weights)`. -/
def listMin (l : List ℚ) : ℚ :=
  match l with
  | [] => 0
  | x :: rest => rest.foldl min x

/-- `SignalDetector.normalizeWeight`. -/
def normalizeWeight (weight : ℚ) (allSignals : List Signal) : ℚ :=
  let weights := allSignals.map (·.weight)
  let maxWeight := listMax weights
  let minWeight := listMin weights
  if maxWeight = minWeight then 1/2
  else (weight - minWeight) / (maxWeight - minWeight)

/-- `SignalDetector.calculateTotalScore`:
`0.3 * normalizedWeight + 0.4 * recencyScore + 0.3 * crossSourceScore`. -/
def calculateTotalScore (s : ProcessedSignal) : ℚ :=
  s.normalizedWeight * (3/10) + s.recencyScore * (4/10) +
    s.crossSourceScore * (3/10)

/-- `SignalDetector.processSignals`. -/
def processSignals (e : ℚ → ℚ) (now : ℚ) (signals : List Signal) :
    List ProcessedSignal :=
  if signals.length = 0 then []
  else
    let signals := cleanKeywords signals
    let sourceMap := buildKeywordSourceMap signals
    let processed := signals.map fun s =>
      { toSignal := s
        normalizedWeight := normalizeWeight s.weight signals
        recencyScore := calculateRecencyScore e now s.timestamp
        crossSourceScore := calculateCrossSourceScore s.keywords sourceMap }
    jsSortDesc calculateTotalScore processed

/-- The per-keyword frequency map of `detectAnomalies`. -/
def keywordFrequencyOf (signals : List Signal) : List (String × ℕ) :=
  signals.foldl (fun m s => s.keywords.foldl (fun m kw => bump m kw 1) m) []

/-- Mean of the frequency list (JS divides even when the list is empty;
over `ℚ` the empty case gives `0 / 0 = 0`, and in JS it gives `NaN`; in both
models the value is never consulted because the flagging loop below runs over
the empty map). -/
def avgFrequencyOf (signals : List Signal) : ℚ :=
  let frequencies := (keywordFrequencyOf signals).map (·.2)
  (frequencies.foldl (fun (a : ℚ) (b : ℕ) => a + (b : ℚ)) 0) /
    (frequencies.length : ℚ)

/-- The variance argument handed to `Math.sqrt` by `detectAnomalies`. -/
def varFrequencyOf (signals : List Signal) : ℚ :=
  let frequencies := (keywordFrequencyOf signals).map (·.2)
  let avg := avgFrequencyOf signals
  (frequencies.foldl (fun (sum : ℚ) (f : ℕ) => sum + ((f : ℚ) - avg) ^ 2) 0) /
    (frequencies.length : ℚ)

/-- The set of flagged keywords of `detectAnomalies`; `sq` models
`Math.sqrt`. -/
def anomalyKeywordsOf (sq : ℚ → ℚ) (signals : List Signal) : List String :=
  let avg := avgFrequencyOf signals
  let stdDev := sq (varFrequencyOf signals)
  (keywordFrequencyOf signals).foldl
    (fun acc p => if (p.2 : ℚ) > avg + 2 * stdDev then setAdd acc p.1 else acc)
    []

/-- `SignalDetector.detectAnomalies`. -/
def detectAnomalies (sq : ℚ → ℚ) (signals : List Signal) : List Signal :=
  let anomalyKeywords := anomalyKeywordsOf sq signals
  signals.filter fun s => s.keywords.any fun kw => anomalyKeywords.contains kw

/-! ### NarrativeClusterer (src/unnamed/part_003, `narrative-clusterer.ts`) -/

/-- `KEYWORD_ALIASES`: canonical keyword mapping. -/
def KEYWORD_ALIASES : List (String × String) :=
  [("dexes", "dex"), ("amm", "dex"), ("swap", "dex"), ("trading", "dex"),
   ("perps", "derivatives"), ("perpetuals", "derivatives"),
   ("perp", "derivatives"), ("lending", "lending"), ("borrowing", "lending"),
   ("liquid-staking", "liquid-staking"), ("lst", "liquid-staking"),
   ("staking", "staking"), ("validator", "staking"), ("nft", "nft"),
   ("nfts", "nft"), ("compressed-nfts", "compressed-nft"),
   ("state-compression", "compressed-nft"), ("zk-compression", "compressed-nft"),
   ("token-extensions", "token-extensions"), ("token-2022", "token-extensions"),
   ("ai", "ai"), ("artificial-intelligence", "ai"), ("agents", "ai-agents"),
   ("ai-agents", "ai-agents"), ("depin", "depin"), ("iot", "depin"),
   ("bridge", "cross-chain"), ("cross-chain", "cross-chain"),
   ("interoperability", "cross-chain"), ("rwa", "rwa"),
   ("real-world-assets", "rwa"), ("tokenization", "rwa"),
   ("oracle", "oracle"), ("oracles", "oracle"), ("payments", "payments"),
   ("stablecoin", "payments"), ("usdc", "payments"), ("mobile", "mobile"),
   ("saga", "mobile"), ("gaming", "gaming"), ("game", "gaming"),
   ("prediction", "prediction-market"), ("betting", "prediction-market"),
   ("yield", "yield"), ("farming", "yield"), ("apy", "yield"),
   ("cdp", "stablecoin"), ("mev", "mev"), ("high-tvl", "high-tvl"),
   ("growth", "growth"), ("trending", "trending")]

/-- `KEYWORD_ALIASES[kw]` as an optional lookup. -/
def aliasOf (kw : String) : Option String := KEYWORD_ALIASES.lookup kw

/-- `ECOSYSTEM_TERMS`. -/
def ECOSYSTEM_TERMS : List String :=
  ["jupiter", "jito", "marinade", "drift", "kamino", "tensor", "raydium",
   "orca", "meteora", "phoenix", "marginfi", "sanctum", "pyth", "wormhole",
   "helius", "metaplex", "helium", "render", "nosana", "hivemapper",
   "phantom", "backpack", "magic-eden", "solana", "anchor", "firedancer",
   "bonk", "jup", "sol", "defi", "nft", "dex", "lending", "staking",
   "liquid-staking", "derivatives", "oracle", "payments", "depin", "ai",
   "ai-agents", "mev", "rwa", "gaming", "mobile", "compressed-nft",
   "token-extensions", "cross-chain", "yield", "prediction-market"]

/-- Configuration constants of the clusterer. -/
def minClusterSize : ℕ := 3

def similarityThreshold : ℚ := 1/4

def maxNarratives : ℕ := 10

/-- The fixed filler-word list of `isNoisyKeyword`. -/
def NOISY_WORDS : List String :=
  ["behind", "worth", "money", "benefits", "getting", "looking",
   "thinking", "question", "discussion", "help", "need", "want",
   "anyone", "someone", "best", "good", "great", "like", "really",
   "currently", "right", "people", "make", "start", "started",
   "coming", "going", "taking", "working", "trying", "actually",
   "still", "much", "many", "should", "would", "could", "will",
   "phone", "post", "update", "week", "month", "year", "today",
   "yesterday", "introducing-orb", "new-block-explorer", "jump",
   "shares", "firm", "company", "price", "prices", "market",
   "says", "report", "blog", "article", "read", "check"]

/-- `[a-zA-Z]` (the regexes carry the `/i` flag). -/
def isAsciiLetter (c : Char) : Bool := c.isAlpha

/-- `NarrativeClusterer.isNoisyKeyword`. The regex tests translate as:
`/^\d+$/` is "nonempty and all digits"; `/^[a-z]+\d{3,}$/i` is "a nonempty
maximal letter prefix followed by three or more digits up to the end" (letter
and digit classes are disjoint, so the greedy match is exact);
`/^\d+[a-z]+$/i` similarly. -/
def isNoisyKeyword (kw : String) : Bool :=
  let l := kw.toList
  let afterLetters := l.dropWhile isAsciiLetter
  let afterDigits := l.dropWhile Char.isDigit
  kw.length ≤ 2 ||
  (!l.isEmpty && l.all Char.isDigit) ||
  (!(l.takeWhile isAsciiLetter).isEmpty && afterLetters.length ≥ 3 &&
     !afterLetters.isEmpty && afterLetters.all Char.isDigit) ||
  (!(l.takeWhile Char.isDigit).isEmpty && !afterDigits.isEmpty &&
     afterDigits.all isAsciiLetter) ||
  NOISY_WORDS.contains kw

/-- The loop body of `normalizeKeywords` for one source keyword. -/
def normStep (normalized : List String) (kw : String) : List String :=
  let lower := jsTrim (jsToLower kw)
  if isNoisyKeyword lower then normalized
  else
    let normalized :=
      match aliasOf lower with
      | some a => setAdd normalized a
      | none => normalized
    if ECOSYSTEM_TERMS.contains lower = true ∨ lower.length > 3 then
      setAdd normalized lower
    else normalized

/-- `NarrativeClusterer.normalizeKeywords`. -/
def normalizeKeywords (keywords : List String) : List String :=
  keywords.foldl normStep []

/-- Transient clustering state (`KeywordCluster`): `keywords` is a JS `Set`
in insertion order. -/
structure KeywordCluster where
  keywords : List String
  signals : List ProcessedSignal
  centroid : List String
deriving DecidableEq, Repr, Inhabited

/-- Weight of a keyword in the weighted Jaccard similarity. -/
def kwWeight (kw : String) : ℚ :=
  if ECOSYSTEM_TERMS.contains kw then 2 else 1

/-- `NarrativeClusterer.calculateSimilarity` (the second, weighted version;
the unused unweighted `intersection` temporary of the source is dropped). -/
def calculateSimilarity (signal : ProcessedSignal) (cluster : KeywordCluster) :
    ℚ :=
  let signalKeywords := listToSet signal.keywords
  if signalKeywords.length = 0 ∨ cluster.keywords.length = 0 then 0
  else
    let allKeywords := cluster.keywords.foldl setAdd signalKeywords
    let sums := allKeywords.foldl
      (fun (p : ℚ × ℚ) kw =>
        let w := kwWeight kw
        (if signalKeywords.contains kw && cluster.keywords.contains kw then
           p.1 + w
         else p.1,
         p.2 + w))
      (0, 0)
    if sums.2 = 0 then 0 else sums.1 / sums.2

/-- `NarrativeClusterer.updateCentroid`. -/
def updateCentroid (cluster : KeywordCluster) : List String :=
  let keywordFreq := cluster.signals.foldl
    (fun m s =>
      s.keywords.foldl
        (fun m kw => bump m kw (if ECOSYSTEM_TERMS.contains kw then 2 else 1))
        m)
    []
  ((jsSortDesc Prod.snd keywordFreq).take 10).map Prod.fst

/-- Signal ordering key of `buildClusters`. -/
def totalScore3 (s : ProcessedSignal) : ℚ :=
  s.normalizedWeight + s.recencyScore + s.crossSourceScore

/-- The best-cluster scan of `buildClusters`: strict improvement over the
running best plus the threshold test, so the first cluster wins ties. -/
def findBestAux (s : ProcessedSignal) :
    List KeywordCluster → ℕ → Option ℕ × ℚ → Option ℕ × ℚ
  | [], _, best => best
  | c :: rest, i, (bi, bs) =>
      let sim := calculateSimilarity s c
      if sim > bs ∧ sim ≥ similarityThreshold then
        findBestAux s rest (i + 1) (some i, sim)
      else findBestAux s rest (i + 1) (bi, bs)

/-- Adding a signal to an existing cluster: push the signal, union the
keywords, recompute the centroid. -/
def addSignalToCluster (c : KeywordCluster) (s : ProcessedSignal) :
    KeywordCluster :=
  let withSignal : KeywordCluster :=
    { c with
        signals := c.signals ++ [s]
        keywords := s.keywords.foldl setAdd c.keywords }
  { withSignal with centroid := updateCentroid withSignal }

/-- A freshly created singleton cluster (`centroid` is the raw keyword
list, not a recomputed top-10). -/
def newCluster (s : ProcessedSignal) : KeywordCluster :=
  { keywords := listToSet s.keywords, signals := [s], centroid := s.keywords }

/-- One iteration of the `buildClusters` loop over `(clusters, assigned)`:
skip already-assigned ids, otherwise add the signal to the best matching
cluster (when one clears the threshold) or open a new singleton cluster,
then mark the id assigned. -/
def buildStep (st : List KeywordCluster × List String) (s : ProcessedSignal) :
    List KeywordCluster × List String :=
  if st.2.contains s.id then st
  else
    match (findBestAux s st.1 0 (none, 0)).1 with
    | some i =>
        match st.1.get? i with
        | some c => (st.1.set i (addSignalToCluster c s), st.2 ++ [s.id])
        | none => (st.1, st.2 ++ [s.id])
    | none => (st.1 ++ [newCluster s], st.2 ++ [s.id])

/-- `NarrativeClusterer.buildClusters`. -/
def buildClusters (signals : List ProcessedSignal) : List KeywordCluster :=
  ((jsSortDesc totalScore3 signals).foldl buildStep ([], [])).1

/-! #### Narrative text generation -/

/-- The theme table of `identifyTheme` (iteration order is source order). -/
def THEMES : List (String × List String) :=
  [("DeFi", ["defi", "dex", "amm", "lending", "liquidity", "yield", "swap",
             "derivatives", "perps", "trading"]),
   ("Liquid Staking", ["liquid-staking", "lst", "marinade", "jito", "sanctum"]),
   ("NFTs", ["nft", "collection", "mint", "marketplace", "compressed-nft",
             "metadata", "compressed", "tensor", "magic-eden"]),
   ("Gaming", ["gaming", "game", "play-to-earn", "web3-game", "metaverse"]),
   ("Infrastructure", ["validator", "rpc", "infrastructure", "node",
                       "firedancer", "network", "tps"]),
   ("Payments", ["payments", "stablecoin", "usdc", "transfer", "merchant"]),
   ("Mobile", ["mobile", "saga", "dapp-store", "smartphone"]),
   ("DePIN", ["depin", "iot", "physical", "helium", "hivemapper", "nosana",
              "render"]),
   ("AI & Agents", ["ai", "ai-agents", "artificial-intelligence", "ml",
                    "model", "inference", "agents"]),
   ("Developer Tools", ["sdk", "api", "framework", "tools", "library",
                        "anchor", "program"]),
   ("Token Extensions", ["token-extensions", "token-2022", "transfer-hook",
                         "metadata-pointer"]),
   ("MEV", ["mev", "jito", "searcher", "bundle"]),
   ("Cross-Chain", ["cross-chain", "bridge", "wormhole", "interoperability"]),
   ("RWA", ["rwa", "real-world-assets", "tokenization"]),
   ("Oracles", ["oracle", "pyth", "price-feed", "data-feed"])]

/-- `NarrativeClusterer.identifyTheme`: most matching keywords wins, strict
improvement only, default "Emerging Technology". -/
def identifyTheme (keywords : List String) : String :=
  (THEMES.foldl
    (fun (best : String × ℕ) entry =>
      let score := (keywords.filter fun kw =>
        entry.2.any fun term => strIncludes kw term || strIncludes term kw).length
      if score > best.2 then (entry.1, score) else best)
    ("Emerging Technology", 0)).1

/-- The generic-word block list of `formatTitle`. -/
def GENERIC_WORDS : List String :=
  ["solana", "https", "http", "com", "org", "www", "github", "git",
   "rust", "typescript", "javascript", "python", "program", "programs",
   "build", "built", "code", "source", "open", "new", "use", "using",
   "api", "sdk", "lib", "library", "tool", "tools", "test", "tests",
   "repo", "project", "example", "examples", "explorer", "html", "json",
   "defi", "dex", "nft", "sol", "active", "high-volume", "onchain-activity",
   "growth", "trending", "high-tvl", "network", "stake", "staking",
   "lending", "liquid-staking", "ai", "ai-agents", "oracle", "payments",
   "derivatives", "cross-chain", "yield", "compressed-nft", "token-extensions",
   "mev", "rwa", "gaming", "mobile", "depin", "prediction-market"]

/-- Character class of the theme splitting regex `/[\s/&]+/`. -/
def isThemeSep (c : Char) : Bool := c.isWhitespace || c = '/' || c = '&'

/-- The distinct-keyword predicate inside `formatTitle`. -/
def distinctKeywordPred (themeWords : List String) (kw : String) : Bool :=
  let lower := jsToLower kw
  if GENERIC_WORDS.contains lower then false
  else if themeWords.any fun tw => strIncludes lower tw || strIncludes tw lower
    then false
  else if isNoisyKeyword lower then false
  else ECOSYSTEM_TERMS.contains lower ||
         (strIncludes lower "-" && lower.length > 5)

/-- JS `word.charAt(0).toUpperCase() + word.slice(1)`. -/
def capitalizeWord (w : String) : String :=
  match w.toList with
  | [] => ""
  | c :: cs => String.mk (c.toUpper :: cs)

/-- `keyword.split('-').map(capitalize).join(' ')`. -/
def formatKeyword (kw : String) : String :=
  String.intercalate " " ((jsSplitChar '-' kw).map capitalizeWord)

def SUFFIXES : List String :=
  ["Growth", "Momentum", "Surge", "Wave", "Expansion", "Rise"]

/-- `NarrativeClusterer.formatTitle`. The JS fallback chain uses `||` on the
results of `find`; `find` can only return a falsy value (the empty string)
from `keywords[0]`, because the two predicates reject `""` (every theme word
contains `""`, and `ECOSYSTEM_TERMS` does not contain `""`), so only the
`keywords[0]` step needs the explicit falsy test. An empty `formatted` can
only arise from an empty distinct keyword, which the fallback to
`"Ecosystem"` excludes, so the `none` branch of the char code is
unreachable. -/
def formatTitle (theme : String) (keywords : List String) : String :=
  let themeWords := jsSplitRuns isThemeSep (jsToLower theme)
  let distinctKeyword :=
    match keywords.find? (distinctKeywordPred themeWords) with
    | some kw => kw
    | none =>
        match keywords.find? (fun kw => ECOSYSTEM_TERMS.contains (jsToLower kw)) with
        | some kw => kw
        | none =>
            match keywords.head? with
            | some kw => if kw = "" then "Ecosystem" else kw
            | none => "Ecosystem"
  let formatted := formatKeyword distinctKeyword
  let suffixIndex :=
    (match formatted.toList.head? with
     | some c => c.toNat
     | none => 0) % SUFFIXES.length
  theme ++ ": " ++ formatted ++ " " ++ SUFFIXES.getD suffixIndex ""

/-- The canned theme-context sentences of `getThemeContext`. -/
def THEME_CONTEXTS : List (String × String) :=
  [("DeFi",
    "This represents new financial primitives and protocols being built on Solana."),
   ("Liquid Staking",
    "Growing adoption of liquid staking tokens and validator economics on Solana."),
   ("NFTs",
    "Activity in digital collectibles, compressed NFTs, or new marketplace features."),
   ("Gaming",
    "New web3 games or gaming infrastructure launching on Solana."),
   ("Infrastructure",
    "Improvements to Solana\x27s core infrastructure and validator ecosystem."),
   ("Payments",
    "Development in payment rails, stablecoin integration, or merchant adoption."),
   ("Mobile",
    "Mobile-first dApps and Saga phone ecosystem growth."),
   ("DePIN",
    "Physical infrastructure networks being tokenized on Solana."),
   ("AI & Agents",
    "AI model hosting, inference, autonomous agents, or data marketplaces on Solana."),
   ("Developer Tools",
    "New frameworks, SDKs, or tools making Solana development easier."),
   ("Token Extensions",
    "Adoption of Token-2022 program and its advanced features."),
   ("MEV",
    "Maximal extractable value infrastructure and Jito ecosystem developments."),
   ("Cross-Chain",
    "Bridges and interoperability solutions connecting Solana to other chains."),
   ("RWA",
    "Real-world asset tokenization and on-chain representation."),
   ("Oracles",
    "Price feed and data oracle infrastructure developments.")]

/-- `NarrativeClusterer.getThemeContext`. -/
def getThemeContext (theme : String) : String :=
  (THEME_CONTEXTS.lookup theme).getD
    "This represents an emerging trend in the Solana ecosystem."

/-- `NarrativeClusterer.buildDescription`. When `sources` is empty JS would
interpolate `undefined`; clusters always have at least one signal, so the
embedding uses `""` for that unreachable case. -/
def buildDescription (theme : String) (keywords : List String)
    (signals : List ProcessedSignal) (sources : List Source) : String :=
  let signalCount := signals.length
  let sourceText :=
    if sources.length > 1 then
      toString sources.length ++ " different sources (" ++
        String.intercalate ", " (sources.map sourceName) ++ ")"
    else ((sources.map sourceName).headD "")
  let keywordList := String.intercalate ", " ((keywords.take 5).map id)
  "Detected " ++ toString signalCount ++ " signals across " ++ sourceText ++
    " indicating emerging activity in " ++ jsToLower theme ++ ". " ++
    "Key themes include: " ++ keywordList ++ ". " ++ getThemeContext theme

/-- `NarrativeClusterer.generateNarrativeText`. -/
def generateNarrativeText (cluster : KeywordCluster) : String × String :=
  let topKeywords := cluster.centroid.take 5
  let theme := identifyTheme topKeywords
  let sourceList := listToSet (cluster.signals.map (·.source))
  (formatTitle theme topKeywords,
   buildDescription theme topKeywords cluster.signals sourceList)

/-- Milliseconds per week, `7 * 24 * 60 * 60 * 1000`. -/
def weekMs : ℚ := 7 * 24 * 60 * 60 * 1000

/-- `NarrativeClusterer.calculateClusterVelocity`. -/
def calculateClusterVelocity (now : ℚ) (signals : List ProcessedSignal) : ℚ :=
  let recentCount :=
    (signals.filter fun s => decide (now - s.timestamp < weekMs)).length
  let olderCount :=
    (signals.filter fun s =>
      decide (s.timestamp < now - weekMs ∧ s.timestamp > now - 2 * weekMs)).length
  if olderCount = 0 then (if recentCount > 0 then 2 else 1)
  else (recentCount : ℚ) / (olderCount : ℚ)

/-- `NarrativeClusterer.calculateClusterRecency`. -/
def calculateClusterRecency (e : ℚ → ℚ) (now : ℚ)
    (signals : List ProcessedSignal) : ℚ :=
  let avgTimestamp :=
    (signals.map (·.timestamp)).sum / (signals.length : ℚ)
  let ageInDays := (now - avgTimestamp) / msPerDay
  e (-ageInDays / 10)

/-- `NarrativeClusterer.calculateNarrativeScore`:
`20 * crossSourceCount + 15 * velocity + 20 * recency + 5 * keyVoiceMentions
 + min(signalCount / 2, 15)`. -/
def calculateNarrativeScore (crossSourceCount : ℕ) (velocity recency : ℚ)
    (keyVoiceMentions signalCount : ℕ) : ℚ :=
  (crossSourceCount : ℚ) * 20 + velocity * 15 + recency * 20 +
    (keyVoiceMentions : ℚ) * 5 + min ((signalCount : ℚ) / 2) 15

/-- `NarrativeClusterer.clusterToNarrative`; `rid` is the random id suffix
produced by `Math.random().toString(36).substring(7)` for this narrative. -/
def clusterToNarrative (e : ℚ → ℚ) (now : ℚ) (rid : String)
    (cluster : KeywordCluster) : Narrative :=
  let signals := cluster.signals
  let keywords := cluster.keywords
  let td := generateNarrativeText cluster
  let sources := listToSet (signals.map (·.source))
  let crossSourceCount := sources.length
  let velocity := calculateClusterVelocity now signals
  let recency := calculateClusterRecency e now signals
  let keyVoiceMentions :=
    (signals.filter fun s =>
      decide (s.source = Source.twitter) && decide ((5/2 : ℚ) ≤ s.weight)).length
  let score := calculateNarrativeScore crossSourceCount velocity recency
    keyVoiceMentions signals.length
  { id := "narrative_" ++ toString now ++ "_" ++ rid
    title := td.1
    description := td.2
    signals := signals
    keywords := keywords.take 15
    score := score
    metrics :=
      { crossSourceCount := crossSourceCount
        velocity := velocity
        recency := recency
        keyVoiceMentions := keyVoiceMentions }
    timestamp := now }

/-- `title.toLowerCase().replace(/[^a-z]+/g, ' ').trim()` — the collapse of
non-alphabetic runs into single spaces. -/
def collapseNonAlphaStr (s : String) : String := go s.toList false [] where
  /-- Tail-recursive worker; `inRun` records whether the previous character
  belonged to a non-alphabetic run. -/
  go : List Char → Bool → List Char → String
  | [], _, acc => String.mk acc.reverse
  | c :: cs, inRun, acc =>
      if 'a' ≤ c ∧ c ≤ 'z' then go cs false (c :: acc)
      else if inRun then go cs true acc
      else go cs true (' ' :: acc)

/-- Normalized title used for exact-duplicate detection in
`deduplicateNarratives`. -/
def normalizeTitle (title : String) : String :=
  jsTrim (collapseNonAlphaStr (jsToLower title))

/-- `title.split(':')[0].toLowerCase().trim()` — the theme prefix key of a
narrative title. -/
def themeKeyOf (title : String) : String :=
  jsTrim (jsToLower ((jsSplitChar ':' title).headD ""))

/-- The loop body of `deduplicateNarratives` over `(result, seenThemes)`:
push the narrative unless its normalized title was seen or two accepted
narratives already share its theme prefix. -/
def dedupStep (st : List Narrative × List String) (narrative : Narrative) :
    List Narrative × List String :=
  let normalizedTitle := normalizeTitle narrative.title
  let tp := themeKeyOf narrative.title
  let themeCount :=
    (st.1.filter fun n => decide (themeKeyOf n.title = tp)).length
  if !(st.2.contains normalizedTitle) && themeCount < 2 then
    (st.1 ++ [narrative], st.2 ++ [normalizedTitle])
  else st

/-- `NarrativeClusterer.deduplicateNarratives`. -/
def deduplicateNarratives (narratives : List Narrative) : List Narrative :=
  (narratives.foldl dedupStep ([], [])).1

/-- The score adjustment of `rankAndCap`: single-source narratives are
multiplied by `0.4`, multi-source by `1.0`. -/
def penalizeNarrative (n : Narrative) : Narrative :=
  { n with score :=
      if n.metrics.crossSourceCount ≥ 2 then n.score * 1 else n.score * (2/5) }

/-- `NarrativeClusterer.rankAndCap`. -/
def rankAndCap (narratives : List Narrative) : List Narrative :=
  (jsSortDesc Narrative.score (narratives.map penalizeNarrative)).take
    maxNarratives

/-- `NarrativeClusterer.clusterSignals`; `e` models `Math.exp`, `now` the
clock, `rand` the `Math.random()` id-suffix stream. -/
def clusterSignals (e : ℚ → ℚ) (now : ℚ) (rand : ℕ → String)
    (signals : List ProcessedSignal) : List Narrative :=
  if signals.length < minClusterSize then []
  else
    let normalizedSignals := signals.map fun s =>
      { s with keywords := normalizeKeywords s.keywords }
    let clusters := buildClusters normalizedSignals
    let narratives := jsSortDesc Narrative.score
      (mapWithIndex (fun i c => clusterToNarrative e now (rand i) c)
        (clusters.filter fun c => decide (minClusterSize ≤ c.signals.length)))
    rankAndCap (deduplicateNarratives narratives)

/-! ### Specification-side definitions (for refinement statements) -/

/-- The weighted Jaccard similarity on two keyword sets as the spec words it:
weight 2.0 for ecosystem terms and 1.0 otherwise, numerator summed over the
intersection, denominator over the union, 0 when either set is empty. -/
def finsetSim (A B : Finset String) : ℚ :=
  if A = ∅ ∨ B = ∅ then 0
  else (∑ kw ∈ A ∩ B, kwWeight kw) / (∑ kw ∈ A ∪ B, kwWeight kw)

/-- All keyword occurrences of a member list, in member order. -/
def memberKeywords (signals : List ProcessedSignal) : List String :=
  (signals.map (·.keywords)).flatten

/-- Spec-side centroid weight of a keyword: its occurrence count across the
members, doubled for ecosystem terms. -/
def centroidFreq (signals : List ProcessedSignal) (kw : String) : ℕ :=
  (memberKeywords signals).count kw *
    (if ECOSYSTEM_TERMS.contains kw then 2 else 1)

/-- The centroid as the spec describes it: the distinct member keywords in
first-seen order, stably sorted descending by weighted frequency (so ties
stay in first-seen order), truncated to the top 10. -/
def specCentroid (signals : List ProcessedSignal) : List String :=
  (jsSortDesc (centroidFreq signals) (listToSet (memberKeywords signals))).take
    10

/-- All keyword occurrences of a raw-signal batch, in batch order. -/
def batchKeywords (signals : List Signal) : List String :=
  (signals.map (·.keywords)).flatten

/-- Spec-side per-batch frequency of a keyword. -/
def batchFreq (signals : List Signal) (kw : String) : ℕ :=
  (batchKeywords signals).count kw

/-- Spec-side mean of the per-keyword frequency list. -/
def specAvgFrequency (signals : List Signal) : ℚ :=
  let distinct := listToSet (batchKeywords signals)
  ((distinct.map fun kw => (batchFreq signals kw : ℚ)).sum) /
    (distinct.length : ℚ)

/-- Spec-side variance of the per-keyword frequency list. -/
def specVarFrequency (signals : List Signal) : ℚ :=
  let distinct := listToSet (batchKeywords signals)
  let avg := specAvgFrequency signals
  ((distinct.map fun kw => ((batchFreq signals kw : ℚ) - avg) ^ 2).sum) /
    (distinct.length : ℚ)

/-- Spec-side flagging condition of `detectAnomalies`: the keyword occurs in
the batch and its frequency exceeds the mean by more than two standard
deviations (`sq` models `Math.sqrt`). -/
def isAnomalousKeyword (sq : ℚ → ℚ) (signals : List Signal) (kw : String) :
    Prop :=
  0 < batchFreq signals kw ∧
    (batchFreq signals kw : ℚ) >
      specAvgFrequency signals + 2 * sq (specVarFrequency signals)

instance (sq : ℚ → ℚ) (signals : List Signal) (kw : String) :
    Decidable (isAnomalousKeyword sq signals kw) :=
  inferInstanceAs (Decidable (_ ∧ _))

/-- A narrative without its `id` field: the id embeds the `Math.random()`
suffix, every other field is a function of the input (and the clock). -/
structure NarrativeData where
  title : String
  description : String
  signals : List ProcessedSignal
  keywords : List String
  score : ℚ
  metrics : NarrativeMetrics
  timestamp : ℚ
deriving DecidableEq, Repr

/-- Forget the id of a narrative. -/
def stripId (n : Narrative) : NarrativeData :=
  { title := n.title
    description := n.description
    signals := n.signals
    keywords := n.keywords
    score := n.score
    metrics := n.metrics
    timestamp := n.timestamp }

/-- The `rankAndCap` score adjustment on id-less narrative data. -/
def penalizeData (d : NarrativeData) : NarrativeData :=
  { d with score :=
      if d.metrics.crossSourceCount ≥ 2 then d.score * 1 else d.score * (2/5) }

/-! ### Non-finite propagation model of the scorer (for the validation claim)

`JSNum` is `ℚ` extended with an absorbing element `none` standing for the
non-finite doubles (`NaN`, `±Infinity` collapsed): arithmetic with a
non-finite operand is non-finite, division by zero is non-finite, `===` on
`NaN` is false, and ordering comparisons against `NaN` are false. This model
is used to run `processSignals` on a malformed input and observe that it
returns normally instead of raising a validation error. -/

def JSNum : Type := Option ℚ
deriving DecidableEq, Repr

/-- A finite JS number. -/
def fin (q : ℚ) : JSNum := some q

/-- The non-finite JS value (`NaN`). -/
def nan : JSNum := none

def jsAdd : JSNum → JSNum → JSNum
  | some a, some b => some (a + b)
  | _, _ => none

def jsSub : JSNum → JSNum → JSNum
  | some a, some b => some (a - b)
  | _, _ => none

def jsDiv : JSNum → JSNum → JSNum
  | some a, some b => if b = 0 then none else some (a / b)
  | _, _ => none

def jsMul : JSNum → JSNum → JSNum
  | some a, some b => some (a * b)
  | _, _ => none

def jsNeg : JSNum → JSNum
  | some a => some (-a)
  | none => none

/-- `Math.exp` on `JSNum` (`Math.exp(NaN) = NaN`); `e` models the real
exponential. -/
def jsExp (e : ℚ → ℚ) : JSNum → JSNum
  | some x => some (e x)
  | none => none

/-- JS `===` on numbers (`NaN === NaN` is `false`). -/
def jsStrictEq : JSNum → JSNum → Bool
  | some a, some b => decide (a = b)
  | _, _ => false

/-- Binary `Math.max` (`NaN` absorbs). -/
def jsMax2 : JSNum → JSNum → JSNum
  | some a, some b => some (max a b)
  | _, _ => none

/-- Binary `Math.min` (`NaN` absorbs). -/
def jsMin2 : JSNum → JSNum → JSNum
  | some a, some b => some (min a b)
  | _, _ => none

/-- `x > 0` in JS (`NaN > 0` is `false`). -/
def jsPos : JSNum → Bool
  | some v => decide (0 < v)
  | none => false

/-- A raw signal whose numeric fields are JS doubles. -/
structure SignalN where
  id : String
  source : Source
  timestamp : JSNum
  keywords : List String
  weight : JSNum
deriving DecidableEq, Repr

structure ProcessedSignalN extends SignalN where
  normalizedWeight : JSNum
  recencyScore : JSNum
  crossSourceScore : JSNum
deriving DecidableEq, Repr

/-- `cleanKeywords` over the non-finite model. -/
def cleanKeywordsN (signals : List SignalN) : List SignalN :=
  signals.map fun s =>
    { s with keywords :=
        s.keywords.filter fun kw => !(STOP_KEYWORDS.contains (jsToLower kw)) }

/-- `buildKeywordSourceMap` over the non-finite model. -/
def buildKeywordSourceMapN (signals : List SignalN) :
    List (String × List Source) :=
  signals.foldl
    (fun m s => s.keywords.foldl (fun m kw => mapAddSource m kw s.source) m) []

/-- `calculateRecencyScore` over the non-finite model: a non-finite
timestamp propagates through `(now - t) / 86400000` and `Math.exp` as
`NaN`. -/
def calculateRecencyScoreN (e : ℚ → ℚ) (now timestamp : JSNum) : JSNum :=
  let ageInDays := jsDiv (jsSub now timestamp) (fin msPerDay)
  jsExp e (jsDiv (jsNeg ageInDays) (fin 7))

/-- `calculateCrossSourceScore` over the non-finite model (the counts are
integers, so this stays finite). -/
def calculateCrossSourceScoreN (keywords : List String)
    (sourceMap : List (String × List Source)) : JSNum :=
  let acc := keywords.foldl
    (fun (p : ℕ × ℕ) kw =>
      match sourceMap.lookup kw with
      | some sources => (p.1 + sources.length, p.2 + 1)
      | none => p)
    (0, 0)
  if acc.2 > 0 then fin ((acc.1 : ℚ) / (acc.2 : ℚ)) else fin 0

/-- `Math.max(...weights)` over the non-finite model. -/
def listMaxN (l : List JSNum) : JSNum :=
  match l with
  | [] => none
  | x :: rest => rest.foldl jsMax2 x

def listMinN (l : List JSNum) : JSNum :=
  match l with
  | [] => none
  | x :: rest => rest.foldl jsMin2 x

/-- `normalizeWeight` over the non-finite model (the `===` guard is false
when either extremum is `NaN`, letting `NaN` flow into the division). -/
def normalizeWeightN (weight : JSNum) (allSignals : List SignalN) : JSNum :=
  let weights := allSignals.map (·.weight)
  let maxWeight := listMaxN weights
  let minWeight := listMinN weights
  if jsStrictEq maxWeight minWeight then fin (1/2)
  else jsDiv (jsSub weight minWeight) (jsSub maxWeight minWeight)

def calculateTotalScoreN (s : ProcessedSignalN) : JSNum :=
  jsAdd (jsAdd (jsMul s.normalizedWeight (fin (3/10)))
      (jsMul s.recencyScore (fin (4/10))))
    (jsMul s.crossSourceScore (fin (3/10)))

/-- The JS sort keeps `a` before `b` unless the comparator
`(a, b) => score(b) - score(a)` returns a positive number (a `NaN`
comparator result is treated as equal). -/
def keepOrderN (a b : ProcessedSignalN) : Prop :=
  jsPos (jsSub (calculateTotalScoreN b) (calculateTotalScoreN a)) = false

instance : DecidableRel keepOrderN := fun a b =>
  inferInstanceAs (Decidable (_ = false))

/-- `processSignals` over the non-finite model: same structure as
`processSignals`, no validation anywhere. -/
def processSignalsN (e : ℚ → ℚ) (now : JSNum) (signals : List SignalN) :
    List ProcessedSignalN :=
  if signals.length = 0 then []
  else
    let signals := cleanKeywordsN signals
    let sourceMap := buildKeywordSourceMapN signals
    let processed := signals.map fun s =>
      { toSignalN := s
        normalizedWeight := normalizeWeightN s.weight signals
        recencyScore := calculateRecencyScoreN e now s.timestamp
        crossSourceScore := calculateCrossSourceScoreN s.keywords sourceMap }
    processed.insertionSort keepOrderN

/-! ### Concrete fixtures used by witnesses and counterexamples -/

/-- A one-signal batch input. -/
def wSig1 : Signal :=
  { id := "w1", source := .github, timestamp := 0, keywords := ["jupiter"],
    weight := 1 }

/-- A raw signal with no keywords (degenerate-statistics input). -/
def wSigEmpty : Signal :=
  { id := "w2", source := .github, timestamp := 0, keywords := [], weight := 1 }

/-- A processed signal at the reference clock with neutral scores. -/
def wPS (i : String) (src : Source) (kws : List String) : ProcessedSignal :=
  { id := i, source := src, timestamp := 0, keywords := kws, weight := 1,
    normalizedWeight := 1/2, recencyScore := 1, crossSourceScore := 1 }

/-- Three signals sharing a keyword set across three source categories:
they form a single cluster. -/
def wBatch : List ProcessedSignal :=
  [wPS "s1" .github ["jupiter", "defi"],
   wPS "s2" .twitter ["jupiter", "defi"],
   wPS "s3" .onchain ["jupiter", "defi"]]

/-- The cluster formed by `wBatch` (keyword sets identical). -/
def wCluster : KeywordCluster :=
  { keywords := ["jupiter", "defi"], signals := wBatch,
    centroid := ["jupiter", "defi"] }

/-- A signal whose keyword list has a non-ecosystem term before an ecosystem
term: the raw list and the weighted top-10 recomputation disagree. -/
def wSigC9 : ProcessedSignal := wPS "s9" .github ["foobar", "jupiter"]

/-- The centroid invariant each reachable cluster satisfies after every
assignment: a singleton cluster keeps the raw keyword list of its only
member, and any larger cluster carries the recomputed weighted top-10
centroid. -/
def centroidInv (c : KeywordCluster) : Prop :=
  c.signals ≠ [] ∧
    ((c.signals.length = 1 ∧
        c.centroid = (c.signals.headD default).keywords) ∨
      (c.signals.length ≠ 1 ∧ c.centroid = specCentroid c.signals))

/-- A signal with a non-finite (`NaN`) timestamp and finite weight. -/
def wSigNaN : SignalN :=
  { id := "n1", source := .github, timestamp := nan, keywords := ["alpha"],
    weight := fin 1 }

/-! ## Helper lemmas -/

theorem mem_setAdd {α : Type} [DecidableEq α] {l : List α} {x y : α} :
    y ∈ setAdd l x ↔ y ∈ l ∨ y = x := by
  unfold setAdd
  split
  · rename_i hx
    constructor
    · exact Or.inl
    · rintro (h | rfl) <;> assumption
  · simp [or_comm]

theorem setAdd_nodup {α : Type} [DecidableEq α] {l : List α} (h : l.Nodup)
    (x : α) : (setAdd l x).Nodup := by
  unfold setAdd
  split
  · exact h
  · rename_i hx
    simpa [List.nodup_append] using ⟨h, fun hmem => hx hmem⟩

theorem mem_foldl_setAdd {α : Type} [DecidableEq α] (l : List α) :
    ∀ (acc : List α) (y : α), y ∈ l.foldl setAdd acc ↔ y ∈ acc ∨ y ∈ l := by
  induction l with
  | nil => simp
  | cons a l ih =>
      intro acc y
      simp only [List.foldl_cons, ih, mem_setAdd, List.mem_cons]
      tauto

theorem foldl_setAdd_nodup {α : Type} [DecidableEq α] (l : List α) :
    ∀ acc : List α, acc.Nodup → (l.foldl setAdd acc).Nodup := by
  induction l with
  | nil => simpa using fun _ h => h
  | cons a l ih =>
      intro acc hacc
      exact ih _ (setAdd_nodup hacc a)

theorem mem_listToSet {α : Type} [DecidableEq α] {l : List α} {y : α} :
    y ∈ listToSet l ↔ y ∈ l := by
  simp [listToSet, mem_foldl_setAdd]

theorem listToSet_nodup {α : Type} [DecidableEq α] (l : List α) :
    (listToSet l).Nodup :=
  foldl_setAdd_nodup l [] List.nodup_nil

theorem listToSet_toFinset {α : Type} [DecidableEq α] (l : List α) :
    (listToSet l).toFinset = l.toFinset := by
  ext y
  simp [mem_listToSet]

theorem listToSet_eq_nil {α : Type} [DecidableEq α] {l : List α} :
    listToSet l = [] ↔ l = [] := by
  constructor
  · intro h
    cases l with
    | nil => rfl
    | cons a l =>
        exfalso
        have : a ∈ listToSet (a :: l) := mem_listToSet.2 (List.mem_cons_self a l)
        simp [h] at this
  · rintro rfl
    rfl

theorem foldl_add_eq {α β : Type} [AddCommMonoid β] (f : α → β) (l : List α) :
    ∀ init : β, l.foldl (fun acc x => acc + f x) init = init + (l.map f).sum := by
  induction l with
  | nil => simp
  | cons a l ih =>
      intro init
      simp [ih, add_assoc]

theorem nodup_map_sum_eq_finset_sum {α : Type} [DecidableEq α] (f : α → ℚ)
    {l : List α} (h : l.Nodup) : (l.map f).sum = ∑ x ∈ l.toFinset, f x :=
  (List.sum_toFinset f h).symm

/-! #### Lemmas about `jsSortDesc` -/

theorem jsSortDesc_perm {α κ : Type} [LinearOrder κ] (key : α → κ)
    (l : List α) : List.Perm (jsSortDesc key l) l :=
  List.perm_insertionSort _ l

theorem jsSortDesc_length {α κ : Type} [LinearOrder κ] (key : α → κ)
    (l : List α) : (jsSortDesc key l).length = l.length :=
  (jsSortDesc_perm key l).length_eq

theorem jsSortDesc_mem {α κ : Type} [LinearOrder κ] (key : α → κ)
    {l : List α} {x : α} : x ∈ jsSortDesc key l ↔ x ∈ l :=
  (jsSortDesc_perm key l).mem_iff

theorem jsSortDesc_pairwise {α κ : Type} [LinearOrder κ] (key : α → κ)
    (l : List α) : (jsSortDesc key l).Pairwise fun a b => key b ≤ key a := by
  have tot : IsTotal α fun a b => key b ≤ key a :=
    ⟨fun a b => le_total (key b) (key a)⟩
  have trs : IsTrans α fun a b => key b ≤ key a :=
    ⟨fun _ _ _ h1 h2 => le_trans h2 h1⟩
  exact List.sorted_insertionSort _ l

theorem jsSortDesc_map {α β κ : Type} [LinearOrder κ] (f : α → β)
    (keyA : α → κ) (keyB : β → κ) (h : ∀ a, keyA a = keyB (f a))
    (l : List α) : (jsSortDesc keyA l).map f = jsSortDesc keyB (l.map f) := by
  unfold jsSortDesc
  exact @List.map_insertionSort α β (fun a b => keyA b ≤ keyA a)
    (fun a b => keyB b ≤ keyB a) _ _ f l
    (fun a _ b _ => by
      show keyA b ≤ keyA a ↔ keyB (f b) ≤ keyB (f a)
      rw [h a, h b])

/-! #### Lemmas about `bump` folds (JS frequency maps) -/

theorem bump_map_fst {κ : Type} [DecidableEq κ] (m : List (κ × ℕ)) (k : κ)
    (w : ℕ) : (bump m k w).map Prod.fst = setAdd (m.map Prod.fst) k := by
  induction m with
  | nil => simp [bump, setAdd]
  | cons p m ih =>
      obtain ⟨k', v⟩ := p
      by_cases hk : k = k'
      · subst hk
        simp [bump, setAdd]
      · simp only [bump, if_neg hk, List.map_cons, ih]
        unfold setAdd
        by_cases hmem : k ∈ m.map Prod.fst <;>
          simp [hmem, hk, Ne.symm hk]

theorem mapVal_cons {κ : Type} [DecidableEq κ] (k1 : κ) (v : ℕ)
    (m : List (κ × ℕ)) (k' : κ) :
    mapVal ((k1, v) :: m) k' = if k1 = k' then v else mapVal m k' := by
  by_cases h : k1 = k' <;> simp [mapVal, List.find?, h]

theorem bump_mapVal {κ : Type} [DecidableEq κ] (m : List (κ × ℕ)) (k : κ)
    (w : ℕ) (k' : κ) :
    mapVal (bump m k w) k' =
      if k' = k then mapVal m k' + w else mapVal m k' := by
  induction m with
  | nil =>
      by_cases h : k' = k
      · subst h
        simp [bump, mapVal_cons, mapVal]
      · have h2 : k ≠ k' := fun hh => h hh.symm
        simp [bump, mapVal_cons, mapVal, h, h2]
  | cons p m ih =>
      obtain ⟨k1, v⟩ := p
      by_cases hk : k = k1
      · subst hk
        by_cases h' : k' = k
        · subst h'
          simp [bump, mapVal_cons]
        · have h2 : k ≠ k' := fun hh => h' hh.symm
          simp [bump, mapVal_cons, h', h2]
      · simp only [bump, if_neg hk, mapVal_cons, ih]
        by_cases h1 : k1 = k'
        · subst h1
          have h2 : ¬ k1 = k := fun hh => hk hh.symm
          simp [h2]
        · simp [h1]

theorem entry_eq_mapVal {κ : Type} [DecidableEq κ] {m : List (κ × ℕ)}
    (h : (m.map Prod.fst).Nodup) {p : κ × ℕ} (hp : p ∈ m) :
    p.2 = mapVal m p.1 := by
  induction m with
  | nil => cases hp
  | cons q m ih =>
      obtain ⟨k1, v⟩ := q
      rcases List.mem_cons.1 hp with rfl | hp'
      · simp [mapVal_cons]
      · have h1 : k1 ≠ p.1 := by
          intro hEq
          have hmem : k1 ∈ m.map Prod.fst :=
            List.mem_map.2 ⟨p, hp', hEq.symm⟩
          exact (List.nodup_cons.1 h).1 hmem
        rw [mapVal_cons, if_neg h1]
        exact ih (by simpa using (List.nodup_cons.1 h).2) hp'

theorem nested_foldl_eq_flat {σ κ : Type} (f : σ → κ → σ)
    (sls : List (List κ)) :
    ∀ init : σ,
      sls.foldl (fun st l => l.foldl f st) init = sls.flatten.foldl f init := by
  induction sls with
  | nil => simp
  | cons l sls ih =>
      intro init
      simp [ih, List.foldl_append]

theorem foldl_bump_fst {κ : Type} [DecidableEq κ] (w : κ → ℕ) (ks : List κ) :
    ∀ m0 : List (κ × ℕ),
      ((ks.foldl (fun m k => bump m k (w k)) m0).map Prod.fst) =
        ks.foldl setAdd (m0.map Prod.fst) := by
  induction ks with
  | nil => simp
  | cons k ks ih =>
      intro m0
      simp only [List.foldl_cons, ih, bump_map_fst]

theorem foldl_bump_mapVal {κ : Type} [DecidableEq κ] (w : κ → ℕ)
    (ks : List κ) :
    ∀ (m0 : List (κ × ℕ)) (k' : κ),
      mapVal (ks.foldl (fun m k => bump m k (w k)) m0) k' =
        mapVal m0 k' + ks.count k' * w k' := by
  induction ks with
  | nil => simp
  | cons k ks ih =>
      intro m0 k'
      simp only [List.foldl_cons, ih, bump_mapVal]
      by_cases h : k' = k
      · subst h
        simp [List.count_cons]
        ring
      · simp only [if_neg h, List.count_cons]
        have : ¬ k = k' := fun hh => h hh.symm
        simp [this]

/-! ## C5: the weighted Jaccard similarity -/

theorem kwWeight_pos (kw : String) : 0 < kwWeight kw := by
  unfold kwWeight
  split <;> norm_num

theorem list_contains_iff {l : List String} {x : String} :
    l.contains x = true ↔ x ∈ l := by
  simp

theorem foldl_pair_split (f g : String → ℚ) (l : List String) :
    ∀ p : ℚ × ℚ,
      l.foldl (fun p kw => (p.1 + f kw, p.2 + g kw)) p =
        (p.1 + (l.map f).sum, p.2 + (l.map g).sum) := by
  induction l with
  | nil => simp
  | cons a l ih =>
      intro p
      simp [ih, add_assoc]

theorem calculateSimilarity_eq_finsetSim (s : ProcessedSignal)
    (c : KeywordCluster) :
    calculateSimilarity s c =
      finsetSim s.keywords.toFinset c.keywords.toFinset := by
  classical
  simp only [calculateSimilarity]
  set A := s.keywords.toFinset with hA
  set B := c.keywords.toFinset with hB
  by_cases hguard : (listToSet s.keywords).length = 0 ∨ c.keywords.length = 0
  · rw [if_pos hguard]
    have : A = ∅ ∨ B = ∅ := by
      rcases hguard with h | h
      · left
        have : listToSet s.keywords = [] := List.length_eq_zero.1 h
        have hnil : s.keywords = [] := listToSet_eq_nil.1 this
        simp [hA, hnil]
      · right
        have hnil : c.keywords = [] := List.length_eq_zero.1 h
        simp [hB, hnil]
    rw [finsetSim, if_pos this]
  · rw [if_neg hguard]
    push_neg at hguard
    obtain ⟨hs0, hc0⟩ := hguard
    have hsne : s.keywords ≠ [] := by
      intro h
      exact hs0 (by simp [h, listToSet])
    have hcne : c.keywords ≠ [] := by
      intro h
      exact hc0 (by simp [h])
    have hAne : A.Nonempty := by
      obtain ⟨x, hx⟩ := List.exists_mem_of_ne_nil _ hsne
      exact ⟨x, by simp [hA, hx]⟩
    have hBne : B.Nonempty := by
      obtain ⟨x, hx⟩ := List.exists_mem_of_ne_nil _ hcne
      exact ⟨x, by simp [hB, hx]⟩
    set U := c.keywords.foldl setAdd (listToSet s.keywords) with hU
    have hUnodup : U.Nodup := foldl_setAdd_nodup _ _ (listToSet_nodup _)
    have hUfin : U.toFinset = A ∪ B := by
      ext y
      simp [hU, mem_foldl_setAdd, mem_listToSet, hA, hB, or_comm]
    have hfunext :
        (fun (p : ℚ × ℚ) kw =>
          ((if (listToSet s.keywords).contains kw && c.keywords.contains kw
            then p.1 + kwWeight kw else p.1),
           p.2 + kwWeight kw)) =
        (fun (p : ℚ × ℚ) kw =>
          (p.1 + (if kw ∈ A ∩ B then kwWeight kw else 0),
           p.2 + kwWeight kw)) := by
      funext p kw
      by_cases hmem : kw ∈ A ∩ B
      · have h1 : (listToSet s.keywords).contains kw = true := by
          rw [list_contains_iff, mem_listToSet]
          have := Finset.mem_inter.1 hmem
          simpa [hA] using this.1
        have h2 : c.keywords.contains kw = true := by
          rw [list_contains_iff]
          have := Finset.mem_inter.1 hmem
          simpa [hB] using this.2
        rw [if_pos (by simp only [Bool.and_eq_true]; exact ⟨h1, h2⟩), if_pos hmem]
      · have hcond : ¬ ((listToSet s.keywords).contains kw &&
            c.keywords.contains kw) = true := by
          simp only [Bool.and_eq_true]
          intro ⟨h1, h2⟩
          apply hmem
          rw [Finset.mem_inter]
          constructor
          · rw [hA]
            simpa using mem_listToSet.1 (list_contains_iff.1 h1)
          · rw [hB]
            simpa using list_contains_iff.1 h2
        rw [if_neg hcond, if_neg hmem]
        simp
    rw [hfunext,
      foldl_pair_split (fun kw => if kw ∈ A ∩ B then kwWeight kw else 0)
        kwWeight]
    have hnum : ((U.map fun kw => if kw ∈ A ∩ B then kwWeight kw else 0).sum) =
        ∑ kw ∈ A ∩ B, kwWeight kw := by
      rw [nodup_map_sum_eq_finset_sum _ hUnodup, hUfin]
      rw [Finset.sum_ite_mem]
      congr 1
      exact Finset.inter_eq_right.2
        (le_trans Finset.inter_subset_left Finset.subset_union_left)
    have hden : ((U.map kwWeight).sum) = ∑ kw ∈ A ∪ B, kwWeight kw := by
      rw [nodup_map_sum_eq_finset_sum _ hUnodup, hUfin]
    have hdenpos : 0 < ∑ kw ∈ A ∪ B, kwWeight kw :=
      Finset.sum_pos (fun kw _ => kwWeight_pos kw)
        (hAne.mono Finset.subset_union_left)
    simp only [zero_add, hnum, hden]
    rw [if_neg (by positivity)]
    rw [finsetSim,
      if_neg (by
        rintro (h | h)
        · exact hAne.ne_empty h
        · exact hBne.ne_empty h)]

/-- **C5**: the weighted Jaccard similarity (weight 2.0 for ecosystem terms,
1.0 otherwise; numerator over the intersection, denominator over the union)
is symmetric in its two keyword sets, always lies in [0, 1], equals exactly
1.0 on identical non-empty keyword sets, and is exactly what
`calculateSimilarity` computes on a signal and a cluster. -/
theorem claimC5_weightedJaccard :
    (∀ A B : Finset String, finsetSim A B = finsetSim B A) ∧
    (∀ A B : Finset String, 0 ≤ finsetSim A B ∧ finsetSim A B ≤ 1) ∧
    (∀ A : Finset String, A.Nonempty → finsetSim A A = 1) ∧
    ∀ (s : ProcessedSignal) (c : KeywordCluster),
      calculateSimilarity s c =
        finsetSim s.keywords.toFinset c.keywords.toFinset := by
  refine ⟨fun A B => ?_, fun A B => ?_, fun A hA => ?_,
    calculateSimilarity_eq_finsetSim⟩
  · unfold finsetSim
    rw [Finset.inter_comm, Finset.union_comm]
    by_cases h : A = ∅ ∨ B = ∅
    · rw [if_pos h, if_pos h.symm]
    · rw [if_neg h, if_neg fun hc => h hc.symm]
  · unfold finsetSim
    split
    · norm_num
    · have hnumnn : 0 ≤ ∑ kw ∈ A ∩ B, kwWeight kw :=
        Finset.sum_nonneg fun kw _ => (kwWeight_pos kw).le
      have hdennn : 0 ≤ ∑ kw ∈ A ∪ B, kwWeight kw :=
        Finset.sum_nonneg fun kw _ => (kwWeight_pos kw).le
      constructor
      · exact div_nonneg hnumnn hdennn
      · rcases eq_or_lt_of_le hdennn with h0 | hpos
        · rw [div_eq_zero_iff.2]
          · norm_num
          · right
            exact h0.symm
        · rw [div_le_one hpos]
          exact Finset.sum_le_sum_of_subset_of_nonneg
            (Finset.inter_subset_union) fun kw _ _ => (kwWeight_pos kw).le
  · unfold finsetSim
    rw [if_neg (by
      rintro (h | h) <;> exact hA.ne_empty h)]
    rw [Finset.inter_self, Finset.union_self]
    exact div_self
      (ne_of_gt (Finset.sum_pos (fun kw _ => kwWeight_pos kw) hA))

/-- Witness for C5: the similarity of the one-element keyword set
`{"jupiter"}` with itself is 1. -/
theorem claimC5_weightedJaccard_witness :
    ({"jupiter"} : Finset String).Nonempty ∧
      finsetSim {"jupiter"} {"jupiter"} = 1 :=
  ⟨⟨"jupiter", Finset.mem_singleton_self _⟩,
   claimC5_weightedJaccard.2.2.1 {"jupiter"}
     ⟨"jupiter", Finset.mem_singleton_self _⟩⟩

/-! ## C6: keyword normalization -/

/-- What one source keyword `kw` may contribute to the normalized set:
nothing when its lowercased/trimmed form is noisy; otherwise its canonical
alias, and the lowercased form itself when that is an ecosystem term or
longer than 3 characters. -/
def normalizeContrib (kw x : String) : Prop :=
  ¬ isNoisyKeyword (jsTrim (jsToLower kw)) = true ∧
    (aliasOf (jsTrim (jsToLower kw)) = some x ∨
      (x = jsTrim (jsToLower kw) ∧
        (ECOSYSTEM_TERMS.contains x = true ∨ x.length > 3)))

theorem mem_normStep (acc : List String) (kw x : String) :
    x ∈ normStep acc kw ↔ x ∈ acc ∨ normalizeContrib kw x := by
  unfold normStep normalizeContrib
  set lower := jsTrim (jsToLower kw) with hlow
  by_cases hnoisy : isNoisyKeyword lower = true
  · rw [if_pos hnoisy]
    simp [hnoisy]
  · rw [if_neg hnoisy]
    cases hal : aliasOf lower with
    | none =>
        simp only
        by_cases hkeep : ECOSYSTEM_TERMS.contains lower = true ∨
            lower.length > 3
        · rw [if_pos hkeep, mem_setAdd]
          constructor
          · rintro (h | rfl)
            · exact Or.inl h
            · exact Or.inr ⟨hnoisy, Or.inr ⟨rfl, hkeep⟩⟩
          · rintro (h | ⟨-, (h | ⟨rfl, -⟩)⟩)
            · exact Or.inl h
            · cases h
            · exact Or.inr rfl
        · rw [if_neg hkeep]
          constructor
          · exact Or.inl
          · rintro (h | ⟨-, (h | ⟨rfl, hk⟩)⟩)
            · exact h
            · cases h
            · exact absurd hk hkeep
    | some al =>
        simp only
        by_cases hkeep : ECOSYSTEM_TERMS.contains lower = true ∨
            lower.length > 3
        · rw [if_pos hkeep, mem_setAdd, mem_setAdd]
          constructor
          · rintro ((h | rfl) | rfl)
            · exact Or.inl h
            · exact Or.inr ⟨hnoisy, Or.inl rfl⟩
            · exact Or.inr ⟨hnoisy, Or.inr ⟨rfl, hkeep⟩⟩
          · rintro (h | ⟨-, (h | ⟨rfl, -⟩)⟩)
            · exact Or.inl (Or.inl h)
            · exact Or.inl (Or.inr (Option.some_inj.1 h).symm)
            · exact Or.inr rfl
        · rw [if_neg hkeep, mem_setAdd]
          constructor
          · rintro (h | rfl)
            · exact Or.inl h
            · exact Or.inr ⟨hnoisy, Or.inl rfl⟩
          · rintro (h | ⟨-, (h | ⟨rfl, hk⟩)⟩)
            · exact Or.inl h
            · exact Or.inr (Option.some_inj.1 h).symm
            · exact absurd hk hkeep

theorem mem_normalizeKeywords_aux (kws : List String) :
    ∀ (acc : List String) (x : String),
      x ∈ kws.foldl normStep acc ↔
        x ∈ acc ∨ ∃ kw ∈ kws, normalizeContrib kw x := by
  induction kws with
  | nil => simp
  | cons a kws ih =>
      intro acc x
      rw [List.foldl_cons, ih, mem_normStep]
      simp only [List.mem_cons]
      constructor
      · rintro ((h | h) | ⟨kw, hkw, hc⟩)
        · exact Or.inl h
        · exact Or.inr ⟨a, Or.inl rfl, h⟩
        · exact Or.inr ⟨kw, Or.inr hkw, hc⟩
      · rintro (h | ⟨kw, (rfl | hkw), hc⟩)
        · exact Or.inl (Or.inl h)
        · exact Or.inl (Or.inr hc)
        · exact Or.inr ⟨kw, hkw, hc⟩

/-- **C6**: `normalizeKeywords` drops every keyword whose lowercased/trimmed
form is noisy (too short, purely numeric, username-like, or a filler word,
per `isNoisyKeyword`), maps alias terms to their canonical form, and also
keeps the original term exactly when it is an ecosystem term or longer than
3 characters; `['dexes','amm','swap']` normalizes to a set containing
`'dex'`, `'james09777'` is noisy and `'jupiter'` is not. -/
theorem claimC6_normalizeKeywords :
    (∀ (kws : List String) (x : String),
        x ∈ normalizeKeywords kws ↔ ∃ kw ∈ kws, normalizeContrib kw x) ∧
      "dex" ∈ normalizeKeywords ["dexes", "amm", "swap"] ∧
      isNoisyKeyword "james09777" = true ∧
      isNoisyKeyword "jupiter" = false := by
  refine ⟨fun kws x => ?_, by decide, by decide, by decide⟩
  rw [normalizeKeywords, mem_normalizeKeywords_aux]
  simp
/-! ## C1: processSignals shape, ranges and ordering -/

theorem le_foldl_max (l : List ℚ) : ∀ b : ℚ, b ≤ l.foldl max b := by
  induction l with
  | nil => simp
  | cons a l ih =>
      intro b
      exact le_trans (le_max_left b a) (ih (max b a))

theorem mem_le_foldl_max (l : List ℚ) :
    ∀ (b x : ℚ), x ∈ l → x ≤ l.foldl max b := by
  induction l with
  | nil => simp
  | cons a l ih =>
      intro b x hx
      rcases List.mem_cons.1 hx with rfl | hx
      · exact le_trans (le_max_right b x) (le_foldl_max l (max b x))
      · exact ih (max b a) x hx

theorem foldl_min_le (l : List ℚ) : ∀ b : ℚ, l.foldl min b ≤ b := by
  induction l with
  | nil => simp
  | cons a l ih =>
      intro b
      exact le_trans (ih (min b a)) (min_le_left b a)

theorem foldl_min_le_mem (l : List ℚ) :
    ∀ (b x : ℚ), x ∈ l → l.foldl min b ≤ x := by
  induction l with
  | nil => simp
  | cons a l ih =>
      intro b x hx
      rcases List.mem_cons.1 hx with rfl | hx
      · exact le_trans (foldl_min_le l (min b x)) (min_le_right b x)
      · exact ih (min b a) x hx

theorem le_listMax {l : List ℚ} {x : ℚ} (h : x ∈ l) : x ≤ listMax l := by
  cases l with
  | nil => cases h
  | cons a l =>
      rcases List.mem_cons.1 h with rfl | h
      · exact le_foldl_max l x
      · exact mem_le_foldl_max l a x h

theorem listMin_le {l : List ℚ} {x : ℚ} (h : x ∈ l) : listMin l ≤ x := by
  cases l with
  | nil => cases h
  | cons a l =>
      rcases List.mem_cons.1 h with rfl | h
      · exact foldl_min_le l x
      · exact foldl_min_le_mem l a x h

theorem normalizeWeight_unitInterval {s : Signal} {signals : List Signal}
    (hs : s ∈ signals) :
    0 ≤ normalizeWeight s.weight signals ∧
      normalizeWeight s.weight signals ≤ 1 := by
  unfold normalizeWeight
  set weights := signals.map (·.weight) with hws
  have hwmem : s.weight ∈ weights := List.mem_map.2 ⟨s, hs, rfl⟩
  by_cases heq : listMax weights = listMin weights
  · rw [if_pos heq]
    norm_num
  · rw [if_neg heq]
    have h1 : listMin weights ≤ s.weight := listMin_le hwmem
    have h2 : s.weight ≤ listMax weights := le_listMax hwmem
    have hlt : listMin weights < listMax weights :=
      lt_of_le_of_ne (le_trans h1 h2) fun h => heq h.symm
    constructor
    · exact div_nonneg (by linarith) (by linarith)
    · rw [div_le_one (by linarith)]
      linarith

theorem cleanKeywords_length (signals : List Signal) :
    (cleanKeywords signals).length = signals.length := by
  simp [cleanKeywords]

/-- **C1**: `processSignals` returns a list of the same length as the
keyword-cleaned input (which has the length of the input), sorted descending
by the combined score `0.3·normalizedWeight + 0.4·recencyScore +
0.3·crossSourceScore`; every element's `normalizedWeight` lies in `[0, 1]`,
and (since the real exponential is everywhere positive) every element's
`recencyScore` is positive; the empty batch yields the empty list. -/
theorem claimC1_processSignals (e : ℚ → ℚ) (now : ℚ) (signals : List Signal) :
    processSignals e now [] = [] ∧
    (processSignals e now signals).length = (cleanKeywords signals).length ∧
    (processSignals e now signals).length = signals.length ∧
    (processSignals e now signals).Pairwise
      (fun a b => calculateTotalScore b ≤ calculateTotalScore a) ∧
    (∀ p ∈ processSignals e now signals,
        0 ≤ p.normalizedWeight ∧ p.normalizedWeight ≤ 1) ∧
    ((∀ x : ℚ, 0 < e x) →
      ∀ p ∈ processSignals e now signals, 0 < p.recencyScore) := by
  refine ⟨rfl, ?_, ?_, ?_, ?_, ?_⟩
  · by_cases h0 : signals.length = 0
    · rw [processSignals, if_pos h0, cleanKeywords_length, h0]
      rfl
    · rw [processSignals, if_neg h0]
      simp [jsSortDesc_length, cleanKeywords_length]
  · by_cases h0 : signals.length = 0
    · rw [processSignals, if_pos h0, h0]
      rfl
    · rw [processSignals, if_neg h0]
      simp [jsSortDesc_length, cleanKeywords_length]
  · by_cases h0 : signals.length = 0
    · rw [processSignals, if_pos h0]
      exact List.Pairwise.nil
    · rw [processSignals, if_neg h0]
      exact jsSortDesc_pairwise _ _
  · intro p hp
    by_cases h0 : signals.length = 0
    · rw [processSignals, if_pos h0] at hp
      cases hp
    · rw [processSignals, if_neg h0] at hp
      rw [jsSortDesc_mem] at hp
      obtain ⟨s, hs, rfl⟩ := List.mem_map.1 hp
      exact normalizeWeight_unitInterval hs
  · intro he p hp
    by_cases h0 : signals.length = 0
    · rw [processSignals, if_pos h0] at hp
      cases hp
    · rw [processSignals, if_neg h0] at hp
      rw [jsSortDesc_mem] at hp
      obtain ⟨s, hs, rfl⟩ := List.mem_map.1 hp
      exact he _

/-- Witness for C1: with `exp` instantiated by the everywhere-positive
constant-one function, the recency score of the processed one-signal batch
is positive. -/
theorem claimC1_processSignals_witness :
    0 < ((processSignals (fun _ => 1) 0 [wSig1]).headD default).recencyScore :=
  (claimC1_processSignals (fun _ => 1) 0 [wSig1]).2.2.2.2.2
    (fun _ => one_pos) _ (by decide)

/-! ## C2: the narrative score formula -/

/-- **C2**: for every cluster with at least `minClusterSize` member signals,
the produced narrative's score is
`20·crossSourceCount + 15·velocity + 20·recency + 5·keyVoiceMentions +
min(signalCount/2, 15)`, where `keyVoiceMentions` counts the member signals
from the social-post category (`twitter`) with weight at least 2.5. -/
theorem claimC2_narrativeScore (e : ℚ → ℚ) (now : ℚ) (rid : String)
    (cluster : KeywordCluster)
    (hsize : minClusterSize ≤ cluster.signals.length) :
    (clusterToNarrative e now rid cluster).score =
      ((clusterToNarrative e now rid cluster).metrics.crossSourceCount : ℚ) *
          20 +
        (clusterToNarrative e now rid cluster).metrics.velocity * 15 +
        (clusterToNarrative e now rid cluster).metrics.recency * 20 +
        ((clusterToNarrative e now rid cluster).metrics.keyVoiceMentions : ℚ) *
          5 +
        min (((clusterToNarrative e now rid cluster).signals.length : ℚ) / 2)
          15 ∧
      (clusterToNarrative e now rid cluster).metrics.keyVoiceMentions =
        cluster.signals.countP fun s =>
          decide (s.source = Source.twitter ∧ (5/2 : ℚ) ≤ s.weight) := by
  constructor
  · rfl
  · show (cluster.signals.filter fun s =>
        decide (s.source = Source.twitter) &&
          decide ((5/2 : ℚ) ≤ s.weight)).length = _
    rw [← List.countP_eq_length_filter]
    apply List.countP_congr
    intro s _
    by_cases h1 : s.source = Source.twitter <;>
      by_cases h2 : (5/2 : ℚ) ≤ s.weight <;> simp [h1, h2]

/-- Witness for C2: the three-signal cluster `wCluster` satisfies the size
bound and the score formula. -/
theorem claimC2_narrativeScore_witness :
    minClusterSize ≤ wCluster.signals.length ∧
      (clusterToNarrative (fun _ => 1) 0 "r" wCluster).score =
        ((clusterToNarrative (fun _ => 1) 0 "r" wCluster).metrics.crossSourceCount :
            ℚ) * 20 +
          (clusterToNarrative (fun _ => 1) 0 "r" wCluster).metrics.velocity *
            15 +
          (clusterToNarrative (fun _ => 1) 0 "r" wCluster).metrics.recency *
            20 +
          ((clusterToNarrative (fun _ => 1) 0 "r" wCluster).metrics.keyVoiceMentions :
            ℚ) * 5 +
          min
            (((clusterToNarrative (fun _ => 1) 0 "r" wCluster).signals.length :
              ℚ) / 2) 15 :=
  ⟨by decide,
   (claimC2_narrativeScore (fun _ => 1) 0 "r" wCluster (by decide)).1⟩

/-! ## C10: anomaly detection -/

theorem keywordFrequencyOf_eq (signals : List Signal) :
    keywordFrequencyOf signals =
      (batchKeywords signals).foldl (fun m kw => bump m kw 1) [] := by
  rw [keywordFrequencyOf, batchKeywords, ← nested_foldl_eq_flat,
    List.foldl_map]

theorem keywordFrequencyOf_fst (signals : List Signal) :
    (keywordFrequencyOf signals).map Prod.fst =
      listToSet (batchKeywords signals) := by
  rw [keywordFrequencyOf_eq]
  exact foldl_bump_fst (fun _ => 1) (batchKeywords signals) []

theorem keywordFrequencyOf_mapVal (signals : List Signal) (k : String) :
    mapVal (keywordFrequencyOf signals) k = batchFreq signals k := by
  rw [keywordFrequencyOf_eq]
  have := foldl_bump_mapVal (fun _ => 1) (batchKeywords signals) [] k
  simpa [batchFreq, mapVal] using this

theorem keywordFrequencyOf_entry (signals : List Signal) {p : String × ℕ}
    (hp : p ∈ keywordFrequencyOf signals) : p.2 = batchFreq signals p.1 := by
  rw [← keywordFrequencyOf_mapVal]
  exact entry_eq_mapVal
    (by rw [keywordFrequencyOf_fst]; exact listToSet_nodup _) hp

theorem keywordFrequencyOf_snd (signals : List Signal) :
    (keywordFrequencyOf signals).map Prod.snd =
      (listToSet (batchKeywords signals)).map (batchFreq signals) := by
  have h1 : (keywordFrequencyOf signals).map Prod.snd =
      (keywordFrequencyOf signals).map fun p => batchFreq signals p.1 :=
    List.map_congr_left fun p hp => keywordFrequencyOf_entry signals hp
  rw [h1, ← keywordFrequencyOf_fst, List.map_map]
  rfl

theorem avgFrequencyOf_eq (signals : List Signal) :
    avgFrequencyOf signals = specAvgFrequency signals := by
  rw [avgFrequencyOf, specAvgFrequency,
    foldl_add_eq (fun b : ℕ => (b : ℚ)), keywordFrequencyOf_snd,
    List.map_map, List.length_map, zero_add]
  rfl

theorem varFrequencyOf_eq (signals : List Signal) :
    varFrequencyOf signals = specVarFrequency signals := by
  rw [varFrequencyOf, specVarFrequency,
    foldl_add_eq fun f : ℕ => ((f : ℚ) - avgFrequencyOf signals) ^ 2,
    keywordFrequencyOf_snd, List.map_map, List.length_map,
    avgFrequencyOf_eq, zero_add]
  rfl

theorem mem_filter_setAdd_fold {κ : Type} [DecidableEq κ]
    (cond : κ × ℕ → Prop) [DecidablePred cond] (m : List (κ × ℕ)) :
    ∀ (acc : List κ) (y : κ),
      y ∈ m.foldl (fun acc p => if cond p then setAdd acc p.1 else acc) acc ↔
        y ∈ acc ∨ ∃ p ∈ m, cond p ∧ p.1 = y := by
  induction m with
  | nil => simp
  | cons q m ih =>
      intro acc y
      rw [List.foldl_cons, ih]
      by_cases hc : cond q
      · rw [if_pos hc, mem_setAdd]
        constructor
        · rintro ((h | rfl) | ⟨p, hp, hcp, rfl⟩)
          · exact Or.inl h
          · exact Or.inr ⟨q, List.mem_cons_self _ _, hc, rfl⟩
          · exact Or.inr ⟨p, List.mem_cons_of_mem _ hp, hcp, rfl⟩
        · rintro (h | ⟨p, hp, hcp, rfl⟩)
          · exact Or.inl (Or.inl h)
          · rcases List.mem_cons.1 hp with rfl | hp'
            · exact Or.inl (Or.inr rfl)
            · exact Or.inr ⟨p, hp', hcp, rfl⟩
      · rw [if_neg hc]
        constructor
        · rintro (h | ⟨p, hp, hcp, rfl⟩)
          · exact Or.inl h
          · exact Or.inr ⟨p, List.mem_cons_of_mem _ hp, hcp, rfl⟩
        · rintro (h | ⟨p, hp, hcp, rfl⟩)
          · exact Or.inl h
          · rcases List.mem_cons.1 hp with rfl | hp'
            · exact absurd hcp hc
            · exact Or.inr ⟨p, hp', hcp, rfl⟩

theorem mem_anomalyKeywordsOf (sq : ℚ → ℚ) (signals : List Signal)
    (kw : String) :
    kw ∈ anomalyKeywordsOf sq signals ↔ isAnomalousKeyword sq signals kw := by
  rw [anomalyKeywordsOf]
  rw [mem_filter_setAdd_fold
    (fun p => ((p.2 : ℚ) >
      avgFrequencyOf signals + 2 * sq (varFrequencyOf signals)))]
  simp only [List.not_mem_nil, false_or]
  constructor
  · rintro ⟨p, hp, hcond, rfl⟩
    have hval := keywordFrequencyOf_entry signals hp
    have hmem : p.1 ∈ listToSet (batchKeywords signals) := by
      rw [← keywordFrequencyOf_fst]
      exact List.mem_map.2 ⟨p, hp, rfl⟩
    refine ⟨?_, ?_⟩
    · rw [batchFreq, List.count_pos_iff]
      exact mem_listToSet.1 hmem
    · rw [← avgFrequencyOf_eq, ← varFrequencyOf_eq, ← hval]
      exact hcond
  · rintro ⟨hpos, hgt⟩
    have hmem : kw ∈ listToSet (batchKeywords signals) := by
      rw [mem_listToSet, ← List.count_pos_iff]
      exact hpos
    rw [← keywordFrequencyOf_fst] at hmem
    obtain ⟨p, hp, rfl⟩ := List.mem_map.1 hmem
    refine ⟨p, hp, ?_, rfl⟩
    rw [keywordFrequencyOf_entry signals hp, avgFrequencyOf_eq,
      varFrequencyOf_eq]
    exact hgt

/-- **C10**: `detectAnomalies` returns exactly the signals containing at
least one keyword whose per-batch frequency exceeds the mean frequency plus
two standard deviations; a batch with no keywords at all yields the empty
list (the degenerate mean/variance value is never consulted, because the
flagging loop runs over the empty frequency map). -/
theorem claimC10_detectAnomalies (sq : ℚ → ℚ) (signals : List Signal) :
    ((∀ s ∈ signals, s.keywords = []) → detectAnomalies sq signals = []) ∧
      ∀ s : Signal,
        s ∈ detectAnomalies sq signals ↔
          s ∈ signals ∧ ∃ kw ∈ s.keywords, isAnomalousKeyword sq signals kw := by
  constructor
  · intro hempty
    rw [detectAnomalies, List.filter_eq_nil_iff]
    intro s hs
    rw [hempty s hs]
    simp
  · intro s
    rw [detectAnomalies, List.mem_filter]
    simp only [List.any_eq_true, list_contains_iff]
    constructor
    · rintro ⟨hs, kw, hkw, hmem⟩
      exact ⟨hs, kw, hkw, (mem_anomalyKeywordsOf sq signals kw).1 hmem⟩
    · rintro ⟨hs, kw, hkw, han⟩
      exact ⟨hs, kw, hkw, (mem_anomalyKeywordsOf sq signals kw).2 han⟩

/-- Witness for C10: a batch of one keyword-less signal yields the empty
anomaly list. -/
theorem claimC10_detectAnomalies_witness :
    detectAnomalies (fun _ => 0) [wSigEmpty] = [] :=
  (claimC10_detectAnomalies (fun _ => 0) [wSigEmpty]).1 (by decide)

/-! ## C9: the centroid invariant of the greedy clustering pass -/

theorem jsSortDesc_map_local {α β κ : Type} [LinearOrder κ] (f : α → β)
    (keyA : α → κ) (keyB : β → κ) (l : List α)
    (h : ∀ a ∈ l, keyA a = keyB (f a)) :
    (jsSortDesc keyA l).map f = jsSortDesc keyB (l.map f) := by
  unfold jsSortDesc
  exact @List.map_insertionSort α β (fun a b => keyA b ≤ keyA a)
    (fun a b => keyB b ≤ keyB a) _ _ f l
    (fun a ha b hb => by
      show keyA b ≤ keyA a ↔ keyB (f b) ≤ keyB (f a)
      rw [h a ha, h b hb])

theorem updateCentroid_eq_specCentroid (c : KeywordCluster) :
    updateCentroid c = specCentroid c.signals := by
  rw [updateCentroid, specCentroid]
  have hm : (c.signals.foldl
      (fun m s =>
        s.keywords.foldl
          (fun m kw =>
            bump m kw (if ECOSYSTEM_TERMS.contains kw then 2 else 1)) m)
      []) =
      (memberKeywords c.signals).foldl
        (fun m kw =>
          bump m kw (if ECOSYSTEM_TERMS.contains kw then 2 else 1)) [] := by
    rw [memberKeywords, ← nested_foldl_eq_flat, List.foldl_map]
  rw [hm]
  set w : String → ℕ := fun kw => if ECOSYSTEM_TERMS.contains kw then 2 else 1
    with hw
  set m := (memberKeywords c.signals).foldl (fun m kw => bump m kw (w kw)) []
    with hmdef
  have hfst : m.map Prod.fst = listToSet (memberKeywords c.signals) := by
    rw [hmdef]
    have := foldl_bump_fst w (memberKeywords c.signals) []
    simpa [listToSet] using this
  have hnodup : (m.map Prod.fst).Nodup := by
    rw [hfst]
    exact listToSet_nodup _
  have hval : ∀ p ∈ m, p.2 = centroidFreq c.signals p.1 := by
    intro p hp
    rw [entry_eq_mapVal hnodup hp, hmdef, foldl_bump_mapVal]
    simp [centroidFreq, mapVal, hw, Nat.mul_comm]
  rw [List.map_take, jsSortDesc_map_local Prod.fst Prod.snd
    (centroidFreq c.signals) m hval, hfst]

theorem addSignalToCluster_centroid (c : KeywordCluster)
    (s : ProcessedSignal) :
    (addSignalToCluster c s).centroid = specCentroid (c.signals ++ [s]) := by
  rw [addSignalToCluster]
  exact updateCentroid_eq_specCentroid _

theorem buildStep_centroidInv {st : List KeywordCluster × List String}
    (hinv : ∀ c ∈ st.1, centroidInv c) (s : ProcessedSignal) :
    ∀ c ∈ (buildStep st s).1, centroidInv c := by
  obtain ⟨clusters, assigned⟩ := st
  rw [buildStep]
  by_cases hassigned : (clusters, assigned).2.contains s.id = true
  · rw [if_pos hassigned]
    exact hinv
  · rw [if_neg hassigned]
    cases hbest : (findBestAux s (clusters, assigned).1 0 (none, 0)).1 with
    | some i =>
          dsimp only
          cases hget : clusters.get? i with
          | some c0 =>
              dsimp only
              intro c hc
              rcases List.mem_or_eq_of_mem_set hc with hc' | rfl
              · exact hinv c hc'
              · have hc0 : centroidInv c0 :=
                  hinv c0 (List.get?_mem hget)
                refine ⟨by
                  show ¬(c0.signals ++ [s]) = []
                  simp, Or.inr ⟨?_, ?_⟩⟩
                · have : c0.signals ≠ [] := hc0.1
                  have hlen : 1 ≤ c0.signals.length :=
                    List.length_pos.2 this
                  show ¬((addSignalToCluster c0 s).signals.length = 1)
                  have : (addSignalToCluster c0 s).signals =
                      c0.signals ++ [s] := rfl
                  rw [this]
                  simp only [List.length_append, List.length_singleton]
                  omega
                · have hsig : (addSignalToCluster c0 s).signals =
                      c0.signals ++ [s] := rfl
                  rw [addSignalToCluster_centroid, hsig]
          | none =>
              dsimp only
              intro c hc
              exact hinv c hc
    | none =>
        dsimp only
        intro c hc
        rcases List.mem_append.1 hc with hc' | hc'
        · exact hinv c hc'
        · have : c = newCluster s := List.mem_singleton.1 hc'
          subst this
          exact ⟨by simp [newCluster], Or.inl ⟨by simp [newCluster], rfl⟩⟩

theorem foldl_buildStep_centroidInv (l : List ProcessedSignal) :
    ∀ st : List KeywordCluster × List String,
      (∀ c ∈ st.1, centroidInv c) →
        ∀ c ∈ (l.foldl buildStep st).1, centroidInv c := by
  induction l with
  | nil => exact fun st h => h
  | cons s l ih =>
      intro st hst
      exact ih (buildStep st s) (buildStep_centroidInv hst s)

/-- **C9 (amended)**: after each assignment of a signal to an *existing*
cluster, the affected cluster's centroid equals the top-10 keywords by
frequency across all its member signals (ecosystem terms counted double,
descending, ties in first-seen order); a *newly created* singleton cluster
instead keeps the signal's raw keyword list as its centroid. Consequently
every cluster reachable inside `buildClusters` satisfies `centroidInv`. -/
theorem claimC9_centroid_amended :
    (∀ (c : KeywordCluster) (s : ProcessedSignal),
        (addSignalToCluster c s).centroid = specCentroid (c.signals ++ [s])) ∧
      (∀ s : ProcessedSignal, (newCluster s).centroid = s.keywords) ∧
      (∀ (l : List ProcessedSignal) (st : List KeywordCluster × List String),
          (∀ c ∈ st.1, centroidInv c) →
            ∀ c ∈ (l.foldl buildStep st).1, centroidInv c) ∧
      ∀ signals : List ProcessedSignal,
        ∀ c ∈ buildClusters signals, centroidInv c := by
  refine ⟨addSignalToCluster_centroid, fun s => rfl,
    fun l st h => foldl_buildStep_centroidInv l st h, fun signals => ?_⟩
  rw [buildClusters]
  exact foldl_buildStep_centroidInv _ _ (by simp)

/-- Witness for C9 (amended): the single cluster built from `wBatch`
satisfies the centroid invariant. -/
theorem claimC9_centroid_amended_witness :
    centroidInv ((buildClusters wBatch).headD default) :=
  claimC9_centroid_amended.2.2.2 wBatch _ (by decide)

/-- Counterexample for C9 as stated: a newly created singleton cluster keeps
the raw keyword list `["foobar", "jupiter"]` as its centroid, which differs
from the recomputed weighted top-10 (`["jupiter", "foobar"]`, the ecosystem
term counted double coming first), so not every assignment leaves the
affected cluster with the recomputed centroid. -/
theorem claimC9_centroid_counterexample :
    ¬ ∀ c ∈ buildClusters [wSigC9], c.centroid = specCentroid c.signals := by
  decide

/-! ## C3: penalty, re-sort and cap -/

theorem penalizeNarrative_eq (n : Narrative) :
    penalizeNarrative n =
      { n with score :=
          if n.metrics.crossSourceCount < 2 then n.score * (2/5)
          else n.score } := by
  unfold penalizeNarrative
  by_cases h : 2 ≤ n.metrics.crossSourceCount
  · rw [if_pos h, if_neg (by omega)]
    simp
  · rw [if_neg h, if_pos (by omega)]

theorem rankAndCap_eq_take (ns : List Narrative) :
    ∃ l : List Narrative,
      List.Perm l (ns.map penalizeNarrative) ∧
        rankAndCap ns = l.take maxNarratives ∧
        l.Pairwise fun a b => b.score ≤ a.score :=
  ⟨jsSortDesc Narrative.score (ns.map penalizeNarrative),
   jsSortDesc_perm _ _, rfl, jsSortDesc_pairwise Narrative.score _⟩

theorem rankAndCap_length_le (ns : List Narrative) :
    (rankAndCap ns).length ≤ maxNarratives := by
  rw [rankAndCap]
  simpa using List.length_take_le _ _

theorem rankAndCap_sorted (ns : List Narrative) :
    (rankAndCap ns).Pairwise fun a b => b.score ≤ a.score :=
  (jsSortDesc_pairwise Narrative.score _).sublist (List.take_sublist _ _)

/-- **C3**: `rankAndCap` multiplies by 0.4 the score of exactly the
narratives with `crossSourceCount < 2` (changing nothing else and excluding
none of them), re-sorts descending by the adjusted score and truncates to
`maxNarratives = 10`; hence every `clusterSignals` output has length at most
10 and is sorted descending by (adjusted) score. -/
theorem claimC3_rankAndCap :
    (∀ n : Narrative,
        penalizeNarrative n =
          { n with score :=
              if n.metrics.crossSourceCount < 2 then n.score * (2/5)
              else n.score }) ∧
      (∀ ns : List Narrative,
          ∃ l : List Narrative,
            List.Perm l (ns.map penalizeNarrative) ∧
              rankAndCap ns = l.take maxNarratives ∧
              l.Pairwise fun a b => b.score ≤ a.score) ∧
      ∀ (e : ℚ → ℚ) (now : ℚ) (rand : ℕ → String)
        (signals : List ProcessedSignal),
        (clusterSignals e now rand signals).length ≤ maxNarratives ∧
          (clusterSignals e now rand signals).Pairwise
            fun a b => b.score ≤ a.score := by
  refine ⟨penalizeNarrative_eq, rankAndCap_eq_take,
    fun e now rand signals => ?_⟩
  rw [clusterSignals]
  split
  · constructor
    · simp [maxNarratives]
    · exact List.Pairwise.nil
  · exact ⟨rankAndCap_length_le _, rankAndCap_sorted _⟩

/-! ## C4: title deduplication and the theme-prefix cap -/

theorem dedupStep_invariant {st : List Narrative × List String}
    (hseen : st.2 = st.1.map fun n => normalizeTitle n.title)
    (hpair : st.1.Pairwise fun a b =>
      normalizeTitle a.title ≠ normalizeTitle b.title)
    (hcount : ∀ tp : String,
      (st.1.filter fun n => decide (themeKeyOf n.title = tp)).length ≤ 2)
    (nar : Narrative) :
    (dedupStep st nar).2 =
        (dedupStep st nar).1.map (fun n => normalizeTitle n.title) ∧
      (dedupStep st nar).1.Pairwise (fun a b =>
        normalizeTitle a.title ≠ normalizeTitle b.title) ∧
      ∀ tp : String,
        ((dedupStep st nar).1.filter
          fun n => decide (themeKeyOf n.title = tp)).length ≤ 2 := by
  rw [dedupStep]
  split
  · rename_i hcond
    simp only [Bool.and_eq_true, Bool.not_eq_true', decide_eq_true_eq]
      at hcond
    obtain ⟨hnotseen, hcnt⟩ := hcond
    refine ⟨by simp [hseen], ?_, ?_⟩
    · rw [List.pairwise_append]
      refine ⟨hpair, List.pairwise_singleton _ _, ?_⟩
      intro a ha b hb
      rw [List.mem_singleton] at hb
      rw [hb]
      intro hEq
      have : normalizeTitle nar.title ∈ st.2 := by
        rw [hseen]
        exact List.mem_map.2 ⟨a, ha, hEq⟩
      rw [← list_contains_iff] at this
      rw [this] at hnotseen
      cases hnotseen
    · intro tp
      rw [List.filter_append, List.length_append]
      by_cases htp : themeKeyOf nar.title = tp
      · subst htp
        have := hcnt
        simp only [List.filter_cons, decide_eq_true_eq, if_pos rfl,
          List.filter_nil, List.length_cons, List.length_nil, if_true]
        omega
      · simp only [List.filter_cons, decide_eq_true_eq, if_neg htp,
          List.filter_nil, List.length_nil]
        simpa using hcount tp
  · exact ⟨hseen, hpair, hcount⟩

theorem dedup_foldl_invariant (l : List Narrative) :
    ∀ st : List Narrative × List String,
      st.2 = (st.1.map fun n => normalizeTitle n.title) →
      (st.1.Pairwise fun a b =>
        normalizeTitle a.title ≠ normalizeTitle b.title) →
      (∀ tp : String,
        (st.1.filter fun n => decide (themeKeyOf n.title = tp)).length ≤ 2) →
      ((l.foldl dedupStep st).1.Pairwise fun a b =>
          normalizeTitle a.title ≠ normalizeTitle b.title) ∧
        ∀ tp : String,
          ((l.foldl dedupStep st).1.filter
            fun n => decide (themeKeyOf n.title = tp)).length ≤ 2 := by
  induction l with
  | nil => exact fun st _ hp hc => ⟨hp, hc⟩
  | cons nar l ih =>
      intro st hseen hpair hcount
      obtain ⟨h1, h2, h3⟩ := dedupStep_invariant hseen hpair hcount nar
      exact ih (dedupStep st nar) h1 h2 h3

theorem deduplicateNarratives_invariant (narratives : List Narrative) :
    ((deduplicateNarratives narratives).Pairwise fun a b =>
        normalizeTitle a.title ≠ normalizeTitle b.title) ∧
      ∀ tp : String,
        ((deduplicateNarratives narratives).filter
          fun n => decide (themeKeyOf n.title = tp)).length ≤ 2 := by
  rw [deduplicateNarratives]
  exact dedup_foldl_invariant narratives ([], []) rfl List.Pairwise.nil
    fun tp => by simp

theorem rankAndCap_title_invariant {ns : List Narrative}
    (hpair : ns.Pairwise fun a b =>
      normalizeTitle a.title ≠ normalizeTitle b.title)
    (hcount : ∀ tp : String,
      (ns.filter fun n => decide (themeKeyOf n.title = tp)).length ≤ 2) :
    ((rankAndCap ns).Pairwise fun a b =>
        normalizeTitle a.title ≠ normalizeTitle b.title) ∧
      ∀ tp : String,
        ((rankAndCap ns).filter
          fun n => decide (themeKeyOf n.title = tp)).length ≤ 2 := by
  have hmap_pair : (ns.map penalizeNarrative).Pairwise fun a b =>
      normalizeTitle a.title ≠ normalizeTitle b.title :=
    List.pairwise_map.2 (hpair.imp fun h => h)
  have hmap_count : ∀ tp : String,
      ((ns.map penalizeNarrative).filter
        fun n => decide (themeKeyOf n.title = tp)).length ≤ 2 := by
    intro tp
    rw [List.filter_map, List.length_map]
    have : (ns.filter
        ((fun n => decide (themeKeyOf n.title = tp)) ∘ penalizeNarrative)) =
        ns.filter fun n => decide (themeKeyOf n.title = tp) :=
      List.filter_congr fun n _ => rfl
    rw [this]
    exact hcount tp
  have hperm : List.Perm
      (jsSortDesc Narrative.score (ns.map penalizeNarrative))
      (ns.map penalizeNarrative) := jsSortDesc_perm _ _
  have hsort_pair : (jsSortDesc Narrative.score
      (ns.map penalizeNarrative)).Pairwise fun a b =>
        normalizeTitle a.title ≠ normalizeTitle b.title :=
    (hperm.pairwise_iff fun hab => Ne.symm hab).2 hmap_pair
  have hsort_count : ∀ tp : String,
      ((jsSortDesc Narrative.score (ns.map penalizeNarrative)).filter
        fun n => decide (themeKeyOf n.title = tp)).length ≤ 2 := by
    intro tp
    rw [← List.countP_eq_length_filter, hperm.countP_eq,
      List.countP_eq_length_filter]
    exact hmap_count tp
  constructor
  · exact hsort_pair.sublist (List.take_sublist _ _)
  · intro tp
    rw [← List.countP_eq_length_filter]
    calc ((jsSortDesc Narrative.score (ns.map penalizeNarrative)).take
          maxNarratives).countP (fun n => decide (themeKeyOf n.title = tp)) ≤
        (jsSortDesc Narrative.score (ns.map penalizeNarrative)).countP
          (fun n => decide (themeKeyOf n.title = tp)) :=
          (List.take_sublist _ _).countP_le _
      _ ≤ 2 := by
          rw [List.countP_eq_length_filter]
          exact hsort_count tp

/-- **C4**: in every `clusterSignals` output no two narratives share the
same normalized title (lowercased, reduced to alphabetic runs), and at most
2 narratives share the same theme prefix (the text before the first colon of
the title, lowercased and trimmed). -/
theorem claimC4_deduplication (e : ℚ → ℚ) (now : ℚ) (rand : ℕ → String)
    (signals : List ProcessedSignal) :
    ((clusterSignals e now rand signals).Pairwise fun a b =>
        normalizeTitle a.title ≠ normalizeTitle b.title) ∧
      ∀ tp : String,
        ((clusterSignals e now rand signals).filter
          fun n => decide (themeKeyOf n.title = tp)).length ≤ 2 := by
  rw [clusterSignals]
  split
  · exact ⟨List.Pairwise.nil, fun tp => by simp⟩
  · obtain ⟨h1, h2⟩ := deduplicateNarratives_invariant
      (jsSortDesc Narrative.score
        (mapWithIndex (fun i c => clusterToNarrative e now (rand i) c)
          ((buildClusters (signals.map fun s =>
            { s with keywords := normalizeKeywords s.keywords })).filter
            fun c => decide (minClusterSize ≤ c.signals.length))))
    exact rankAndCap_title_invariant h1 h2

/-! ## C8: determinism up to the random narrative ids -/

theorem filter_title_length_eq {r1 r2 : List Narrative}
    (h : r1.map stripId = r2.map stripId) (p : String → Bool) :
    (r1.filter fun n => p n.title).length =
      (r2.filter fun n => p n.title).length := by
  rw [← List.countP_eq_length_filter, ← List.countP_eq_length_filter]
  have h1 : (r1.map stripId).countP (fun d => p d.title) =
      r1.countP fun n => p n.title := List.countP_map _ _ _
  have h2 : (r2.map stripId).countP (fun d => p d.title) =
      r2.countP fun n => p n.title := List.countP_map _ _ _
  rw [← h1, ← h2, h]

theorem dedupStep_strip {st1 st2 : List Narrative × List String}
    {n1 n2 : Narrative}
    (hn : stripId n1 = stripId n2)
    (hres : st1.1.map stripId = st2.1.map stripId) (hseen : st1.2 = st2.2) :
    (dedupStep st1 n1).1.map stripId = (dedupStep st2 n2).1.map stripId ∧
      (dedupStep st1 n1).2 = (dedupStep st2 n2).2 := by
  have htitle : n1.title = n2.title := congrArg NarrativeData.title hn
  rw [dedupStep, dedupStep]
  have hcount : (st1.1.filter fun n =>
      decide (themeKeyOf n.title = themeKeyOf n2.title)).length =
      (st2.1.filter fun n =>
        decide (themeKeyOf n.title = themeKeyOf n2.title)).length :=
    filter_title_length_eq hres
      fun t => decide (themeKeyOf t = themeKeyOf n2.title)
  rw [htitle, hseen, hcount]
  split
  · constructor
    · simp only [List.map_append, List.map_cons, List.map_nil, hres, hn]
    · rfl
  · exact ⟨hres, hseen⟩

theorem dedup_foldl_strip :
    ∀ (l1 l2 : List Narrative), l1.map stripId = l2.map stripId →
      ∀ st1 st2 : List Narrative × List String,
        st1.1.map stripId = st2.1.map stripId → st1.2 = st2.2 →
        (l1.foldl dedupStep st1).1.map stripId =
          (l2.foldl dedupStep st2).1.map stripId := by
  intro l1
  induction l1 with
  | nil =>
      intro l2 h st1 st2 hres _
      have hl2 : l2 = [] := by
        cases l2 with
        | nil => rfl
        | cons a t => simp at h
      subst hl2
      exact hres
  | cons n1 t1 ih =>
      intro l2 h st1 st2 hres hseen
      cases l2 with
      | nil => simp at h
      | cons n2 t2 =>
          simp only [List.map_cons, List.cons.injEq] at h
          obtain ⟨hn, ht⟩ := h
          rw [List.foldl_cons, List.foldl_cons]
          obtain ⟨h1, h2⟩ := dedupStep_strip hn hres hseen
          exact ih t2 ht _ _ h1 h2

theorem jsSortDesc_strip (l1 l2 : List Narrative)
    (h : l1.map stripId = l2.map stripId) :
    (jsSortDesc Narrative.score l1).map stripId =
      (jsSortDesc Narrative.score l2).map stripId := by
  rw [jsSortDesc_map stripId Narrative.score NarrativeData.score
      (fun _ => rfl),
    jsSortDesc_map stripId Narrative.score NarrativeData.score
      (fun _ => rfl), h]

theorem rankAndCap_strip {l1 l2 : List Narrative}
    (h : l1.map stripId = l2.map stripId) :
    (rankAndCap l1).map stripId = (rankAndCap l2).map stripId := by
  rw [rankAndCap, rankAndCap, List.map_take, List.map_take]
  have hpen : ∀ l : List Narrative,
      (l.map penalizeNarrative).map stripId =
        (l.map stripId).map penalizeData := by
    intro l
    rw [List.map_map, List.map_map]
    rfl
  have := jsSortDesc_strip (l1.map penalizeNarrative)
    (l2.map penalizeNarrative) (by rw [hpen, hpen, h])
  rw [this]

theorem mapWithIndex_strip {β : Type}
    (f1 f2 : ℕ → β → Narrative)
    (h : ∀ i c, stripId (f1 i c) = stripId (f2 i c)) :
    ∀ l : List β,
      (mapWithIndex f1 l).map stripId = (mapWithIndex f2 l).map stripId := by
  intro l
  induction l generalizing f1 f2 with
  | nil => rfl
  | cons a l ih =>
      simp only [mapWithIndex, List.map_cons, h 0 a]
      rw [ih _ _ fun i c => h (i + 1) c]

/-- **C8 (amended)**: `clusterSignals` is deterministic *except for the
narrative ids*: two invocations on the same input under the same clock but
different `Math.random()` streams agree after erasing the `id` field of
every narrative. -/
theorem claimC8_determinism_amended (e : ℚ → ℚ) (now : ℚ)
    (rand1 rand2 : ℕ → String) (signals : List ProcessedSignal) :
    (clusterSignals e now rand1 signals).map stripId =
      (clusterSignals e now rand2 signals).map stripId := by
  rw [clusterSignals, clusterSignals]
  split
  · rfl
  · apply rankAndCap_strip
    apply dedup_foldl_strip _ _ _ _ _ rfl rfl
    apply jsSortDesc_strip _ _
    exact mapWithIndex_strip
      (fun i c => clusterToNarrative e now (rand1 i) c)
      (fun i c => clusterToNarrative e now (rand2 i) c)
      (fun i c => rfl) _

/-- Counterexample for C8 as stated: on the three-signal batch `wBatch`,
two invocations with the same clock but different random id suffixes return
different `Narrative` lists (the ids differ), so the outputs are not
identical. -/
theorem claimC8_determinism_counterexample :
    ¬ ∀ (e : ℚ → ℚ) (now : ℚ) (rand1 rand2 : ℕ → String)
        (signals : List ProcessedSignal),
        clusterSignals e now rand1 signals =
          clusterSignals e now rand2 signals := by
  intro h
  exact absurd (h (fun _ => 1) 0 (fun _ => "aaa") (fun _ => "bbb") wBatch)
    (by decide)

/-! ## C7: no validation of non-finite inputs -/

/-- **C7 (code behaviour)**: `processSignals` performs no input validation.
On a batch whose only signal has a non-finite (`NaN`) timestamp, it returns
normally — for every exponential model — with the `NaN` propagated into the
`recencyScore` instead of raising a descriptive validation error (there is
no error path anywhere in the function: its translation is total). -/
theorem claimC7_noValidation (e : ℚ → ℚ) :
    processSignalsN e (fin 0) [wSigNaN] =
      [{ toSignalN := wSigNaN
         normalizedWeight := fin (1/2)
         recencyScore := nan
         crossSourceScore := fin 1 }] := by
  rfl

end SolNarr
